import Mathlib

/-!
Verification of the but-next backup engine (shallow embedding).

The Rust sources under src/ are embedded as executable Lean definitions:
byte sequences are lists of naturals, filesystem state is passed
explicitly (a repository is a list of snapshot manifests plus a blob
store keyed by hash string), and the zstd library — an external crate,
not part of this repository — is abstracted as a pair of functions
subject to its documented contract.  Every definition mirrors the
corresponding Rust function; theorems at the end settle the frozen
claims.
-/

namespace ButNext

/- ── String helpers (char-level counterparts of the Rust str operations) ── -/

/-- Counterpart of Rust String.replace of the backslash character by a slash,
as done on each relative path in backup.rs line 77. -/
def normPath (s : String) : String :=
  ⟨s.data.map (fun c => if c = '\\' then '/' else c)⟩

/-- Counterpart of Rust trim_end_matches with a slash argument: removes all
trailing slash characters. -/
def trimSlashes (s : String) : String :=
  ⟨(s.data.reverse.dropWhile (fun c => c = '/')).reverse⟩

/-- Counterpart of Rust str starts_with for string patterns. -/
def strStarts (s p : String) : Bool := p.data.isPrefixOf s.data

/-- Counterpart of Rust str ends_with for string patterns. -/
def strEnds (s p : String) : Bool := p.data.reverse.isPrefixOf s.data.reverse

/-- Drop the first character (Rust strip-the-leading-star, backup.rs 246). -/
def strDropOne (s : String) : String := ⟨s.data.drop 1⟩

/-- Drop the last character (Rust strip-the-trailing-star, backup.rs 251). -/
def strDropLast (s : String) : String := ⟨s.data.dropLast⟩

/-- Split a character list at slash characters (components of a relative
path, as iterated by Rust Path components in backup.rs 258). -/
def splitSlash : List Char → List Char → List (List Char)
  | [], acc => [acc.reverse]
  | c :: rest, acc =>
    if c = '/' then acc.reverse :: splitSlash rest []
    else splitSlash rest (c :: acc)

/-- The nonempty components of a relative path string. -/
def pathComponents (s : String) : List (List Char) :=
  (splitSlash s.data []).filter (fun c => !c.isEmpty)

/- ── Data model (manifest.rs) ─────────────────────────────────────────── -/

/-- The closed variant set of config.rs CompressionKind. -/
inductive CompressionKind where
  | zstd
  | gzip
  | none
deriving DecidableEq

/-- manifest.rs FileEntry: metadata for a single file within a snapshot.
Timestamps and mode bits are naturals; the hash is the hex string key into
the blob store. -/
structure FileEntry where
  hash : String
  size : Nat
  stored_size : Nat
  permissions : Option Nat
  modified : Nat
  deduplicated : Bool
deriving DecidableEq

/-- manifest.rs SnapshotStats. -/
structure SnapshotStats where
  total_files : Nat
  new_files : Nat
  modified_files : Nat
  unchanged_files : Nat
  total_size : Nat
  stored_size : Nat
  deduplicated_blobs : Nat
  duration_ms : Nat
deriving DecidableEq

/-- The all-zero statistics record (Rust SnapshotStats::default). -/
def SnapshotStats.zero : SnapshotStats := ⟨0, 0, 0, 0, 0, 0, 0, 0⟩

/-- manifest.rs Snapshot.  created_at (a local DateTime in Rust) is modelled
as a natural number so that only its total order is used; the files map (a
BTreeMap in Rust) is an association list ordered by key with unique keys,
maintained by mapInsert below. -/
structure Snapshot where
  id : String
  target_name : String
  source_path : String
  created_at : Nat
  compression : CompressionKind
  encrypted : Bool
  files : List (String × FileEntry)
  stats : SnapshotStats
deriving DecidableEq

/-- Lexicographic strict order on character lists (the order of Rust's
BTreeMap keys, which compares strings bytewise). -/
def listLt : List Char → List Char → Bool
  | [], [] => false
  | [], _ :: _ => true
  | _ :: _, [] => false
  | a :: as, b :: bs =>
    if a.val < b.val then true
    else if b.val < a.val then false
    else listLt as bs

/-- Lexicographic strict order on strings. -/
def strLt (a b : String) : Bool := listLt a.data b.data

/-- Ordered-map insert for the files association list, mirroring BTreeMap
insert: replaces the entry at an existing key, otherwise inserts keeping
keys strictly increasing. -/
def mapInsert (k : String) (v : FileEntry) :
    List (String × FileEntry) → List (String × FileEntry)
  | [] => [(k, v)]
  | (k', v') :: rest =>
    if strLt k k' then (k, v) :: (k', v') :: rest
    else if k = k' then (k, v) :: rest
    else (k', v') :: mapInsert k v rest

/-- Ordered-map lookup for the files association list (BTreeMap get). -/
def mapFind (m : List (String × FileEntry)) (k : String) : Option FileEntry :=
  (m.find? (fun pe => pe.1 == k)).map (fun pe => pe.2)

/-- The repository state: the set of snapshot manifests on disk (ids are
filenames, hence unique in any reachable state) and the blob store, a map
from hash to the stored post-pipeline bytes. -/
structure RepoState where
  snapshots : List Snapshot
  blobs : List (String × List Nat)
deriving DecidableEq

/- ── Hasher (hasher.rs shard_path) ────────────────────────────────────── -/

/-- hasher.rs shard_path: splits a hash at character 2. -/
def shard_path (hash : String) : String × String :=
  (⟨hash.data.take 2⟩, ⟨hash.data.drop 2⟩)

/-- manifest.rs blob_path, as the pair of shard directory and file name
under the blobs directory; it is determined by the hash alone. -/
def blob_path (hash : String) : String × String := shard_path hash

/-- manifest.rs blob_exists: the store holds a blob under this hash. -/
def blob_exists (repo : RepoState) (hash : String) : Bool :=
  repo.blobs.any (fun b => b.1 == hash)

/-- manifest.rs store_blob: write (or overwrite) the blob at a hash key. -/
def storePut (bs : List (String × List Nat)) (h : String) (v : List Nat) :
    List (String × List Nat) :=
  (h, v) :: bs.filter (fun b => b.1 != h)

/-- Membership probe on a bare blob-store value (same test as blob_exists). -/
def storeHas (bs : List (String × List Nat)) (h : String) : Bool :=
  bs.any (fun b => b.1 == h)

/- ── Codec (compress.rs) ──────────────────────────────────────────────── -/

/-- The 12-byte marker written by compress.rs compress_gzip:
the ASCII bytes of BUT_GZIP_V1 followed by a NUL byte. -/
def gzipMarker : List Nat := [66, 85, 84, 95, 71, 90, 73, 80, 95, 86, 49, 0]

/-- The 8 little-endian bytes of a length, as written by
Rust u64 to_le_bytes in compress.rs line 78. -/
def toLE64 (n : Nat) : List Nat :=
  (List.range 8).map (fun i => n / 256 ^ i % 256)

/-- compress.rs compress_zstd delegates to the external zstd crate,
abstracted here as the function zc from level and plaintext to stream. -/
def compress_zstd (zc : Int → List Nat → List Nat) (data : List Nat)
    (level : Int) : List Nat := zc level data

/-- compress.rs decompress_zstd, delegating to the abstract decoder zd
(None models a decoding error). -/
def decompress_zstd (zd : List Nat → Option (List Nat)) (data : List Nat) :
    Option (List Nat) := zd data

/-- compress.rs compress_gzip.  The source first assembles a 10-byte RFC
1952 gzip header, then clears the output buffer (line 76), so the bytes
actually produced are the marker, the 8-byte little-endian plaintext
length, and a zstd stream at level 1. -/
def compress_gzip (zc : Int → List Nat → List Nat) (data : List Nat) :
    List Nat :=
  let compressed := compress_zstd zc data 1
  gzipMarker ++ toLE64 data.length ++ compressed

/-- compress.rs decompress_gzip: if the input starts with the marker, skip
it and the 8 length bytes (erroring if fewer than 8 remain) and zstd-decode
the rest; otherwise fall back to raw zstd decoding. -/
def decompress_gzip (zd : List Nat → Option (List Nat)) (data : List Nat) :
    Option (List Nat) :=
  if gzipMarker.isPrefixOf data then
    let rest := data.drop gzipMarker.length
    if rest.length < 8 then Option.none
    else decompress_zstd zd (rest.drop 8)
  else
    decompress_zstd zd data

/-- compress.rs compress: dispatch on the kind. -/
def compress (zc : Int → List Nat → List Nat) (data : List Nat)
    (kind : CompressionKind) (level : Int) : List Nat :=
  match kind with
  | .zstd => compress_zstd zc data level
  | .gzip => compress_gzip zc data
  | .none => data

/-- compress.rs decompress: dispatch on the kind. -/
def decompress (zd : List Nat → Option (List Nat)) (data : List Nat)
    (kind : CompressionKind) : Option (List Nat) :=
  match kind with
  | .zstd => decompress_zstd zd data
  | .gzip => decompress_gzip zd data
  | .none => some data

/-- The concrete decoder used by the codec witnesses: decodes exactly the
streams produced by demoZc below. -/
def demoZd (y : List Nat) : Option (List Nat) :=
  if y.head? == some 40 then some (y.drop 1) else Option.none

/-- A concrete stand-in for the zstd crate satisfying its contract: every
emitted stream begins with byte 40 (as real zstd frames begin with the
frame magic, whose first byte is 40, never the 66 that opens the gzip
wrapper marker). -/
def demoZc (_ : Int) (x : List Nat) : List Nat := 40 :: x

/- ── Manifest operations (manifest.rs) ────────────────────────────────── -/

/-- The ascending created_at comparison of manifest.rs list_snapshots. -/
def ascBy (a b : Snapshot) : Prop := a.created_at ≤ b.created_at

instance : DecidableRel ascBy := fun _ _ => Nat.decLe _ _

instance : IsTotal Snapshot ascBy := ⟨fun _ _ => Nat.le_total _ _⟩

instance : IsTrans Snapshot ascBy := ⟨fun _ _ _ h1 h2 => Nat.le_trans h1 h2⟩

/-- The descending created_at comparison of backup.rs prune_snapshots. -/
def descBy (a b : Snapshot) : Prop := b.created_at ≤ a.created_at

instance : DecidableRel descBy := fun _ _ => Nat.decLe _ _

instance : IsTotal Snapshot descBy := ⟨fun _ _ => Nat.le_total _ _⟩

instance : IsTrans Snapshot descBy := ⟨fun _ _ _ h1 h2 => Nat.le_trans h2 h1⟩

/-- manifest.rs list_snapshots: every manifest in the repository, sorted
oldest first by created_at. -/
def list_snapshots (repo : RepoState) : List Snapshot :=
  List.insertionSort ascBy repo.snapshots

/-- manifest.rs list_snapshots_for_target. -/
def list_snapshots_for_target (repo : RepoState) (target : String) :
    List Snapshot :=
  (list_snapshots repo).filter (fun s => s.target_name == target)

/-- The ambiguity error raised by manifest.rs find_snapshot, carrying the
supplied id fragment and the number of matches, as its message does. -/
inductive FindErr where
  | ambiguous (idPfx : String) (n : Nat)
deriving DecidableEq

/-- manifest.rs find_snapshot: keep the snapshots whose id starts with the
supplied fragment, then case on the number of matches. -/
def find_snapshot (repo : RepoState) (idPfx : String) :
    Except FindErr (Option Snapshot) :=
  match (list_snapshots repo).filter (fun s => strStarts s.id idPfx) with
  | [] => .ok Option.none
  | [s] => .ok (some s)
  | l => .error (.ambiguous idPfx l.length)

/- ── Exclusion matching (backup.rs is_excluded) ───────────────────────── -/

/-- One pattern of backup.rs is_excluded (lines 242-264): the pattern is
first stripped of all trailing slashes; then a leading star means suffix
match, a trailing star means prefix match, and otherwise some path
component must equal the (again slash-stripped) pattern. -/
def patternMatches (pattern : String) (relStr : String) : Bool :=
  let pat := trimSlashes pattern
  if strStarts pat "*" then strEnds relStr (strDropOne pat)
  else if strEnds pat "*" then strStarts relStr (strDropLast pat)
  else (pathComponents relStr).any (fun c => c == (trimSlashes pat).data)

/-- backup.rs is_excluded: a path is excluded when any pattern matches. -/
def is_excluded (relStr : String) (patterns : List String) : Bool :=
  patterns.any (fun pattern => patternMatches pattern relStr)

/-- The exclusion rules exactly as claim C4 words them, for comparison
with the source's is_excluded: the star rules are applied to the raw
pattern, and only the component rule strips trailing slashes. -/
def claimPatternMatches (pattern : String) (relStr : String) : Bool :=
  if strStarts pattern "*" then strEnds relStr (strDropOne pattern)
  else if strEnds pattern "*" then strStarts relStr (strDropLast pattern)
  else (pathComponents relStr).any (fun c => c == (trimSlashes pattern).data)

/-- A file is excluded under the claim's reading iff some pattern matches
under claimPatternMatches. -/
def claimExcluded (relStr : String) (patterns : List String) : Bool :=
  patterns.any (fun pattern => claimPatternMatches pattern relStr)

/- ── C3: snapshot lookup by prefix ────────────────────────────────────── -/

/-- Fixture snapshots for the C3 counterexample: two stored snapshots, the
full id of the first being a proper initial segment of the second's id. -/
def snapC3a : Snapshot :=
  { id := "20240101-120000-doc", target_name := "doc", source_path := "s",
    created_at := 0, compression := CompressionKind.none, encrypted := false,
    files := [], stats := SnapshotStats.zero }

/-- Second fixture snapshot; its id extends snapC3a's id. -/
def snapC3b : Snapshot :=
  { snapC3a with
    id := "20240101-120000-docs"
    target_name := "docs"
    created_at := 1 }

/- ── C4: exclusion matching ───────────────────────────────────────────── -/

/- ── Differ (restore.rs diff_snapshots) ───────────────────────────────── -/

/-- restore.rs SnapshotDiff. -/
structure SnapshotDiff where
  added : List String
  modified : List String
  removed : List String
  added_size : Nat
  modified_size_delta : Int
  removed_size : Nat
deriving DecidableEq

/-- The default (all-empty) diff that restore.rs starts from. -/
def emptyDiff : SnapshotDiff := ⟨[], [], [], 0, 0, 0⟩

/-- The body of the first loop of diff_snapshots (restore.rs 158-171):
classify one newer-file entry as added or modified. -/
def diffStep1 (older : Snapshot) (d : SnapshotDiff)
    (pe : String × FileEntry) : SnapshotDiff :=
  match mapFind older.files pe.1 with
  | Option.none =>
    { d with
      added := d.added ++ [pe.1]
      added_size := d.added_size + pe.2.size }
  | some old_entry =>
    if old_entry.hash ≠ pe.2.hash then
      { d with
        modified := d.modified ++ [pe.1]
        modified_size_delta := d.modified_size_delta
          + ((pe.2.size : Int) - (old_entry.size : Int)) }
    else d

/-- The body of the second loop of diff_snapshots (restore.rs 174-181):
record an older-file entry absent from newer as removed. -/
def diffStep2 (newer : Snapshot) (d : SnapshotDiff)
    (pe : String × FileEntry) : SnapshotDiff :=
  if (mapFind newer.files pe.1).isSome then d
  else
    { d with
      removed := d.removed ++ [pe.1]
      removed_size := d.removed_size + pe.2.size }

/-- restore.rs diff_snapshots: one pass over the newer files, then one
pass over the older files. -/
def diff_snapshots (older newer : Snapshot) : SnapshotDiff :=
  older.files.foldl (diffStep2 newer)
    (newer.files.foldl (diffStep1 older) emptyDiff)

/-- A newer entry is an addition: its path is absent from the older map. -/
def addedP (older : Snapshot) (pe : String × FileEntry) : Bool :=
  (mapFind older.files pe.1).isNone

/-- A newer entry is a modification: its path is in the older map with a
different hash. -/
def modifiedP (older : Snapshot) (pe : String × FileEntry) : Bool :=
  match mapFind older.files pe.1 with
  | Option.none => false
  | some o => o.hash != pe.2.hash

/-- An older entry is a removal: its path is absent from the newer map. -/
def removedP (newer : Snapshot) (pe : String × FileEntry) : Bool :=
  !(mapFind newer.files pe.1).isSome

/-- The signed size contribution of a modified entry. -/
def deltaOf (older : Snapshot) (pe : String × FileEntry) : Int :=
  match mapFind older.files pe.1 with
  | Option.none => 0
  | some o => (pe.2.size : Int) - (o.size : Int)

/- ── C8: diff symmetry and semantics ──────────────────────────────────── -/

/-- A small file entry for the diff fixtures. -/
def entryOf (h : String) (n : Nat) : FileEntry :=
  ⟨h, n, n, Option.none, 0, false⟩

/-- Older fixture snapshot for the C8 witness. -/
def snapD1 : Snapshot :=
  { snapC3a with files := [("a", entryOf "h1" 1), ("b", entryOf "h2" 2)] }

/-- Newer fixture snapshot for the C8 witness: a removed, b modified,
c added. -/
def snapD2 : Snapshot :=
  { snapC3a with files := [("b", entryOf "h3" 2), ("c", entryOf "h4" 4)] }

/- ── Backup engine (backup.rs) ────────────────────────────────────────── -/

/-- One regular file yielded by the directory walk of backup.rs 53-58:
its source-relative path as produced by the operating system, its content
bytes, its POSIX mode bits and its modification time.  Its metadata size
equals its content length. -/
structure SrcFile where
  path : String
  content : List Nat
  mode : Option Nat
  mtime : Nat
deriving DecidableEq

/-- The content operations the backup loop performs: the read of a file's
bytes for storage (backup.rs 123) and the store of a blob under a hash
(backup.rs 136).  The dedup branch performs neither. -/
inductive BEv where
  | read (path : String)
  | stored (hash : String)
deriving DecidableEq

/-- manifest.rs Snapshot::add_file (lines 135-148): accumulate statistics
and insert the entry into the files map. -/
def add_file (s : Snapshot) (relative_path : String) (entry : FileEntry) :
    Snapshot :=
  let st0 := { s.stats with
    total_files := s.stats.total_files + 1
    total_size := s.stats.total_size + entry.size }
  let st1 :=
    if entry.deduplicated then
      { st0 with
        deduplicated_blobs := st0.deduplicated_blobs + 1
        unchanged_files := st0.unchanged_files + 1 }
    else
      { st0 with
        stored_size := st0.stored_size + entry.stored_size
        new_files := st0.new_files + 1 }
  { s with stats := st1, files := mapInsert relative_path entry s.files }

/-- The mutable state of the backup loop of backup.rs 63-163: the
snapshot being built, the blob store, the three running counters and the
performed content operations. -/
structure LoopSt where
  snapshot : Snapshot
  store : List (String × List Nat)
  total_original_size : Nat
  total_stored_size : Nat
  dedup_count : Nat
  evs : List BEv

/-- Apply the optional encryption stage (backup.rs 126-130). -/
def encApply (encFn : Option (List Nat → List Nat)) (d : List Nat) :
    List Nat :=
  match encFn with
  | some e => e d
  | Option.none => d

/-- One iteration of the backup loop (backup.rs 68-163): normalize the
path, account the metadata size, hash the content; on a dedup hit record
a zero-stored deduplicated entry and advance; otherwise read the content,
compress, optionally encrypt, store the blob and record the entry. -/
def backupStep (hashFn : List Nat → String)
    (compressFn : List Nat → List Nat)
    (encFn : Option (List Nat → List Nat)) (st : LoopSt) (f : SrcFile) :
    LoopSt :=
  let relative := normPath f.path
  let file_size := f.content.length
  let hash := hashFn f.content
  let st := { st with
    total_original_size := st.total_original_size + file_size }
  if storeHas st.store hash then
    { st with
      dedup_count := st.dedup_count + 1
      snapshot := add_file st.snapshot relative
        ⟨hash, file_size, 0, f.mode, f.mtime, true⟩ }
  else
    let raw_data := f.content
    let compressed := compressFn raw_data
    let final_data := encApply encFn compressed
    let stored_size := final_data.length
    { st with
      total_stored_size := st.total_stored_size + stored_size
      store := storePut st.store hash final_data
      snapshot := add_file st.snapshot relative
        ⟨hash, file_size, stored_size, f.mode, f.mtime, false⟩
      evs := st.evs ++ [BEv.read relative, BEv.stored hash] }

/-- The outcome of a successful backup_target run: the committed snapshot
(with the final statistics written at commit), the statistics as
accumulated entry-by-entry by add_file, the final blob store, and the
content operations performed. -/
structure BackupResult where
  snapshot : Snapshot
  accStats : SnapshotStats
  store : List (String × List Nat)
  evs : List BEv

/-- The happy path of backup.rs backup_target (lines 50-182): collect the
walk filtered by exclusion, run the per-file loop, then overwrite the
snapshot statistics from the loop counters and commit. -/
def backupRun (hashFn : List Nat → String)
    (compressFn : List Nat → List Nat)
    (encFn : Option (List Nat → List Nat))
    (store0 : List (String × List Nat)) (name : String)
    (sourcePath : String) (compression : CompressionKind)
    (encrypted : Bool) (createdAt : Nat) (snapId : String)
    (walk : List SrcFile) (excl : List String) (durationMs : Nat) :
    BackupResult :=
  let snap0 : Snapshot :=
    { id := snapId, target_name := name, source_path := sourcePath,
      created_at := createdAt, compression := compression,
      encrypted := encrypted, files := [], stats := SnapshotStats.zero }
  let files := walk.filter (fun f => !(is_excluded f.path excl))
  let total_files := files.length
  let stF := files.foldl (backupStep hashFn compressFn encFn)
    ⟨snap0, store0, 0, 0, 0, []⟩
  let finalStats : SnapshotStats :=
    { total_files := total_files
      new_files := total_files - stF.dedup_count
      modified_files := 0
      unchanged_files := stF.dedup_count
      total_size := stF.total_original_size
      stored_size := stF.total_stored_size
      deduplicated_blobs := stF.dedup_count
      duration_ms := durationMs }
  ⟨{ stF.snapshot with stats := finalStats }, stF.snapshot.stats,
    stF.store, stF.evs⟩

/-- The error.rs BackupError variants relevant here: the source-missing
failure backup_target raises at entry, and the NothingChanged variant
error.rs declares (line 83) but backup.rs never constructs. -/
inductive BackupErr where
  | sourceNotFound (path : String)
  | nothingChanged
deriving DecidableEq

/-- config.rs Settings, restricted to the fields backup_target reads. -/
structure Settings where
  compression : CompressionKind
  zstd_level : Int
  encrypt : Bool
deriving DecidableEq

/-- config.rs BackupTarget: the source directory is modelled by its path,
its existence flag and the list of regular files the walk yields under
it; exclude and the optional compression override are as in the config. -/
structure BackupTarget where
  fromPath : String
  fromExists : Bool
  walk : List SrcFile
  exclude : List String
  compression : Option CompressionKind
deriving DecidableEq

/-- backup.rs backup_target (lines 29-183): fail with SourceNotFound if
the source does not exist, resolve the effective compression and the
encryption switch, then run the pipeline with the codec of compress.rs at
the configured level. -/
def backup_target (hashFn : List Nat → String)
    (zc : Int → List Nat → List Nat) (encFn : List Nat → List Nat)
    (store0 : List (String × List Nat)) (settings : Settings)
    (name : String) (target : BackupTarget) (password : Option String)
    (createdAt : Nat) (snapId : String) (durationMs : Nat) :
    Except BackupErr BackupResult :=
  if ¬target.fromExists then
    .error (.sourceNotFound target.fromPath)
  else
    let compression := target.compression.getD settings.compression
    let encrypted := settings.encrypt && password.isSome
    .ok (backupRun hashFn
      (fun d => compress zc d compression settings.zstd_level)
      (if encrypted then some encFn else Option.none) store0 name
      target.fromPath compression encrypted createdAt snapId target.walk
      target.exclude durationMs)

/-- A concrete content hash for witnesses: injective on the contents the
fixtures use. -/
def demoHash (c : List Nat) : String :=
  ⟨List.replicate ((c.foldl (fun a b => a + b) 0) + c.length + 1) 'h'⟩

/-- Global settings fixture. -/
def demoSettings : Settings := ⟨CompressionKind.zstd, 3, false⟩

/-- A target whose only walked file is excluded by pattern, so the
filtered walk is empty. -/
def demoTargetEmpty : BackupTarget :=
  ⟨"src", true, [⟨"x.tmp", [1], Option.none, 0⟩], ["*.tmp"], Option.none⟩

/-- The walk of the C6 counterexample: two distinct source paths (one
containing a backslash in its file name) whose normalized relative paths
coincide. -/
def cexWalk : List SrcFile :=
  [⟨"a\\b", [0], Option.none, 0⟩, ⟨"a/b", [1], Option.none, 0⟩]

/-- A well-behaved walk fixture: distinct normalized relative paths, the
second file a duplicate of the first's content. -/
def demoWalk : List SrcFile :=
  [⟨"a.txt", [5], Option.none, 0⟩, ⟨"b/c.txt", [5], Option.none, 0⟩]

/- ── C10: empty-backup behavior ───────────────────────────────────────── -/

/-- The invariant tying the accumulated statistics, the files map and the
loop counters together through the backup loop. -/
def statsInv (st : LoopSt) : Prop :=
  st.snapshot.stats.total_files = st.snapshot.files.length ∧
  st.snapshot.stats.new_files
    = (st.snapshot.files.filter (fun pe => !pe.2.deduplicated)).length ∧
  st.snapshot.stats.unchanged_files
    = (st.snapshot.files.filter (fun pe => pe.2.deduplicated)).length ∧
  st.snapshot.stats.deduplicated_blobs
    = (st.snapshot.files.filter (fun pe => pe.2.deduplicated)).length ∧
  st.snapshot.stats.modified_files = 0 ∧
  st.snapshot.stats.total_size
    = (st.snapshot.files.map (fun pe => pe.2.size)).sum ∧
  st.snapshot.stats.stored_size
    = ((st.snapshot.files.filter (fun pe => !pe.2.deduplicated)).map
        (fun pe => pe.2.stored_size)).sum ∧
  st.total_original_size = st.snapshot.stats.total_size ∧
  st.total_stored_size = st.snapshot.stats.stored_size ∧
  st.dedup_count = st.snapshot.stats.deduplicated_blobs

/- ── C6: statistics correctness ───────────────────────────────────────── -/

/- ── Blob store lemmas for the dedup claim ────────────────────────────── -/

/-- The number of blobs stored under a hash (exactly one in any state the
store operations can reach for a written hash). -/
def storeCount (bs : List (String × List Nat)) (h : String) : Nat :=
  (bs.filter (fun b => b.1 == h)).length

/- ── Pruner (manifest.rs delete_snapshot, backup.rs prune_snapshots) ──── -/

/-- The hashes referenced by every snapshot other than the one being
deleted (manifest.rs 264-275). -/
def referencedHashes (snaps : List Snapshot) (excludeId : String) :
    List String :=
  (snaps.filter (fun s => s.id != excludeId)).flatMap
    (fun s => s.files.map (fun pe => pe.2.hash))

/-- manifest.rs delete_snapshot (lines 263-296): remove every blob of the
snapshot whose hash no other snapshot references, summing the on-disk
sizes of the blobs actually present, then remove the manifest; returns
the new state and the freed byte count. -/
def delete_snapshot (repo : RepoState) (snapshot : Snapshot) :
    RepoState × Nat :=
  let refs := referencedHashes repo.snapshots snapshot.id
  let orphans := (snapshot.files.map (fun pe => pe.2.hash)).filter
    (fun h => !(refs.contains h))
  let freed := ((repo.blobs.filter
    (fun b => orphans.contains b.1)).map (fun b => b.2.length)).sum
  let blobs2 := repo.blobs.filter (fun b => !(orphans.contains b.1))
  let snaps2 := repo.snapshots.filter (fun s => s.id != snapshot.id)
  (⟨snaps2, blobs2⟩, freed)

/-- The body of the delete loop of backup.rs prune_snapshots (226-230):
delete one snapshot, bump the count and accumulate the freed bytes. -/
def pruneStep (acc : RepoState × Nat × Nat) (snap : Snapshot) :
    RepoState × Nat × Nat :=
  let r := delete_snapshot acc.1 snap
  (r.1, acc.2.1 + 1, acc.2.2 + r.2)

/-- backup.rs prune_snapshots (lines 212-233): if no more than keep
snapshots exist for the target, do nothing and return (0, 0); otherwise
sort newest first and delete everything beyond index keep. -/
def prune_snapshots (repo : RepoState) (target : String) (keep : Nat) :
    RepoState × Nat × Nat :=
  let snaps := list_snapshots_for_target repo target
  if snaps.length ≤ keep then (repo, 0, 0)
  else
    let sorted := List.insertionSort descBy snaps
    let toDelete := sorted.drop keep
    toDelete.foldl pruneStep (repo, 0, 0)

/- ── C1: prune safety ─────────────────────────────────────────────────── -/

/-- Prune fixture: the older snapshot s1 references hashes ha and hb, the
newer snapshot s2 references ha only; blob hb is exclusive to s1. -/
def snapP1 : Snapshot :=
  { snapC3a with
    id := "s1"
    target_name := "T"
    created_at := 1
    files := [("a", entryOf "ha" 1), ("b", entryOf "hb" 1)] }

/-- The newer prune fixture snapshot. -/
def snapP2 : Snapshot :=
  { snapC3a with
    id := "s2"
    target_name := "T"
    created_at := 2
    files := [("a", entryOf "ha" 1)] }

/-- The prune fixture repository. -/
def repoP : RepoState :=
  ⟨[snapP1, snapP2], [("ha", [0]), ("hb", [1, 1])]⟩

/- ── C5: prune retention ──────────────────────────────────────────────── -/

/- ═══════════════════════ Theorems ═══════════════════════ -/

/- ── Codec lemmas ─────────────────────────────────────────────────────── -/

theorem toLE64_length (n : Nat) : (toLE64 n).length = 8 := by
  simp [toLE64]

theorem decompress_gzip_roundtrip (zc : Int → List Nat → List Nat)
    (zd : List Nat → Option (List Nat))
    (hrt : ∀ l x, zd (zc l x) = some x) (x : List Nat) :
    decompress_gzip zd (compress_gzip zc x) = some x := by
  have hlen : (toLE64 x.length).length = 8 := toLE64_length _
  have hpre : gzipMarker.isPrefixOf (compress_gzip zc x) = true := by
    rw [List.isPrefixOf_iff_prefix]
    show gzipMarker <+: gzipMarker ++ _
    exact List.prefix_append _ _
  simp only [compress_gzip, compress_zstd] at hpre ⊢
  simp [decompress_gzip, hpre, decompress_zstd, hlen]
  exact hrt 1 x

/-- C7: Codec roundtrip — for every byte sequence x, every kind in
{Zstd, Gzip, None} and every level L, decompressing the compressed bytes
under the same kind returns x, for any zstd backend satisfying the
library's roundtrip contract; in particular the marker-wrapped Gzip
representation roundtrips to the original bytes and None returns its
input verbatim in both directions. -/
theorem claim_codec_roundtrip (zc : Int → List Nat → List Nat)
    (zd : List Nat → Option (List Nat))
    (hrt : ∀ l x, zd (zc l x) = some x)
    (kind : CompressionKind) (level : Int) (x : List Nat) :
    decompress zd (compress zc x kind level) kind = some x := by
  cases kind with
  | zstd => exact hrt level x
  | gzip => exact decompress_gzip_roundtrip zc zd hrt x
  | none => rfl

theorem claim_codec_roundtrip_witness :
    decompress demoZd (compress demoZc [1, 2, 3] CompressionKind.gzip 5)
      CompressionKind.gzip = some [1, 2, 3] :=
  claim_codec_roundtrip demoZc demoZd (fun _ _ => rfl)
    CompressionKind.gzip 5 [1, 2, 3]

/-- C9: for every input that does not begin with the 12-byte marker, Gzip
decompression returns the same result as Zstd decompression; consequently
a blob compressed under Zstd decompresses correctly when a snapshot
wrongly records Gzip, for any zstd backend satisfying the roundtrip
contract and whose streams never begin with the marker (real zstd frames
open with the frame magic byte 40, never the byte 66 of the marker). -/
theorem claim_gzip_zstd_compat (zc : Int → List Nat → List Nat)
    (zd : List Nat → Option (List Nat))
    (hrt : ∀ l x, zd (zc l x) = some x)
    (hmag : ∀ l x, gzipMarker.isPrefixOf (zc l x) = false) :
    (∀ y, gzipMarker.isPrefixOf y = false →
        decompress zd y CompressionKind.gzip
          = decompress zd y CompressionKind.zstd) ∧
    (∀ x level,
        decompress zd (compress zc x CompressionKind.zstd level)
          CompressionKind.gzip = some x) := by
  constructor
  · intro y hy
    simp [decompress, decompress_gzip, hy, decompress_zstd]
  · intro x level
    have h := hmag level x
    simp [decompress, compress, compress_zstd, decompress_gzip, h,
      decompress_zstd]
    exact hrt level x

theorem claim_gzip_zstd_compat_witness :
    decompress demoZd (compress demoZc [7, 7] CompressionKind.zstd 3)
      CompressionKind.gzip = some [7, 7] :=
  (claim_gzip_zstd_compat demoZc demoZd (fun _ _ => rfl)
    (fun _ _ => rfl)).2 [7, 7] 3

/- ── Lemmas for the exclusion and lookup claims ───────────────────────── -/

theorem strStarts_self (s : String) : strStarts s s = true := by
  rw [strStarts, List.isPrefixOf_iff_prefix]

theorem trimSlashes_idem (s : String) :
    trimSlashes (trimSlashes s) = trimSlashes s := by
  simp [trimSlashes, List.dropWhile_idempotent]

theorem filter_eq_singleton {α : Type} {l : List α} {p : α → Bool} {s : α}
    (hnd : l.Nodup) (hs : s ∈ l) (hps : p s = true)
    (huniq : ∀ t ∈ l, p t = true → t = s) : l.filter p = [s] := by
  induction l with
  | nil => cases hs
  | cons a t ih =>
    rcases List.mem_cons.mp hs with rfl | hst
    · have hnt : s ∉ t := (List.nodup_cons.mp hnd).1
      have ht : t.filter p = [] := by
        rw [List.filter_eq_nil_iff]
        intro u hu hpu
        exact hnt ((huniq u (List.mem_cons_of_mem _ hu) hpu) ▸ hu)
      simp [List.filter_cons, hps, ht]
    · have has : a ≠ s := by
        intro h
        exact (List.nodup_cons.mp hnd).1 (h ▸ hst)
      have hpa : p a = false := by
        cases hpa : p a with
        | false => rfl
        | true => exact absurd (huniq a (List.mem_cons_self a t) hpa) has
      rw [List.filter_cons_of_neg (by simp [hpa])]
      exact ih (List.nodup_cons.mp hnd).2 hst
        (fun u hu hpu => huniq u (List.mem_cons_of_mem _ hu) hpu)

theorem find_snapshot_eq (repo : RepoState) (idPfx : String) :
    find_snapshot repo idPfx =
      match (list_snapshots repo).filter (fun s => strStarts s.id idPfx) with
      | [] => .ok Option.none
      | [s] => .ok (some s)
      | l => .error (.ambiguous idPfx l.length) := rfl

theorem list_snapshots_perm (repo : RepoState) :
    (list_snapshots repo).Perm repo.snapshots :=
  List.perm_insertionSort ascBy repo.snapshots

/-- C3 counterexample: the claim asserts that supplying the full exact ID
of a stored snapshot always succeeds, but with stored ids
20240101-120000-doc and 20240101-120000-docs, looking up the first full
id matches both snapshots and find_snapshot returns the ambiguity error
instead of the snapshot. -/
theorem claim_find_snapshot_cex :
    snapC3a ∈ (RepoState.mk [snapC3a, snapC3b] []).snapshots ∧
    find_snapshot (RepoState.mk [snapC3a, snapC3b] []) snapC3a.id
      = .error (.ambiguous "20240101-120000-doc" 2) := by
  constructor
  · simp [snapC3a]
  · rfl

/-- C3 (amended): find_snapshot returns None when zero stored ids begin
with the supplied fragment, the unique matching snapshot when exactly one
does, and an ambiguity error carrying the match count when two or more
do; supplying the full exact ID of a stored snapshot succeeds provided no
distinct stored snapshot's id also begins with it. -/
theorem claim_find_snapshot (repo : RepoState) (idPfx : String) :
    ((repo.snapshots.filter (fun s => strStarts s.id idPfx)).length = 0 →
      find_snapshot repo idPfx = .ok Option.none) ∧
    ((repo.snapshots.filter (fun s => strStarts s.id idPfx)).length = 1 →
      ∃ s, s ∈ repo.snapshots ∧ strStarts s.id idPfx = true ∧
        find_snapshot repo idPfx = .ok (some s)) ∧
    (2 ≤ (repo.snapshots.filter (fun s => strStarts s.id idPfx)).length →
      find_snapshot repo idPfx = .error (.ambiguous idPfx
        (repo.snapshots.filter (fun s => strStarts s.id idPfx)).length)) ∧
    (∀ s ∈ repo.snapshots, s.id = idPfx →
      (∀ t ∈ repo.snapshots, strStarts t.id idPfx = true → t = s) →
      (repo.snapshots.map Snapshot.id).Nodup →
      find_snapshot repo idPfx = .ok (some s)) := by
  have hperm : ((list_snapshots repo).filter
      (fun s => strStarts s.id idPfx)).Perm
      (repo.snapshots.filter (fun s => strStarts s.id idPfx)) :=
    (list_snapshots_perm repo).filter _
  refine ⟨?_, ?_, ?_, ?_⟩
  · intro h0
    have : (list_snapshots repo).filter (fun s => strStarts s.id idPfx) = [] :=
      List.eq_nil_of_length_eq_zero (hperm.length_eq.trans h0)
    rw [find_snapshot_eq, this]
  · intro h1
    obtain ⟨s, hs⟩ := List.length_eq_one.mp (hperm.length_eq.trans h1)
    refine ⟨s, ?_, ?_, ?_⟩
    · have : s ∈ (list_snapshots repo).filter (fun t => strStarts t.id idPfx) := by
        simp [hs]
      exact (list_snapshots_perm repo).mem_iff.mp (List.mem_of_mem_filter this)
    · have : s ∈ (list_snapshots repo).filter (fun t => strStarts t.id idPfx) := by
        simp [hs]
      exact (List.mem_filter.mp this).2
    · rw [find_snapshot_eq, hs]
  · intro h2
    have hl2 : 2 ≤ ((list_snapshots repo).filter
        (fun s => strStarts s.id idPfx)).length := hperm.length_eq ▸ h2
    rw [← hperm.length_eq]
    rw [find_snapshot_eq]
    rcases hfl : (list_snapshots repo).filter (fun s => strStarts s.id idPfx)
      with _ | ⟨a, _ | ⟨b, t⟩⟩
    · rw [hfl] at hl2; simp at hl2
    · rw [hfl] at hl2; simp at hl2
    · rw [hfl]
  · intro s hs hid huniq hnd
    have hnd' : (list_snapshots repo).Nodup :=
      (list_snapshots_perm repo).symm.nodup (hnd.of_map _)
    have hfl : (list_snapshots repo).filter
        (fun t => strStarts t.id idPfx) = [s] := by
      apply filter_eq_singleton hnd'
        ((list_snapshots_perm repo).mem_iff.mpr hs)
      · rw [← hid]; exact strStarts_self s.id
      · intro t ht hpt
        exact huniq t ((list_snapshots_perm repo).mem_iff.mp ht) hpt
    rw [find_snapshot_eq, hfl]

theorem claim_find_snapshot_witness :
    ((RepoState.mk [snapC3a, snapC3b] []).snapshots.filter
        (fun s => strStarts s.id "20240101-120000-docs")).length = 1 ∧
    ∃ s, s ∈ (RepoState.mk [snapC3a, snapC3b] []).snapshots ∧
      strStarts s.id "20240101-120000-docs" = true ∧
      find_snapshot (RepoState.mk [snapC3a, snapC3b] [])
        "20240101-120000-docs" = .ok (some s) :=
  ⟨by decide,
    (claim_find_snapshot (RepoState.mk [snapC3a, snapC3b] [])
      "20240101-120000-docs").2.1 (by decide)⟩

/-- C4 counterexample: for the pattern star-dot-tmp-slash and the path
a.tmp, the source first strips the trailing slash and then applies the
leading-star suffix rule, so the file is excluded; under the claim's
rules (star rules applied to the raw pattern) the suffix to compare is
dot-tmp-slash, which no file path ends with, so the claim says the file
is not excluded. -/
theorem claim_exclusion_cex :
    is_excluded "a.tmp" ["*.tmp/"] = true ∧
    claimExcluded "a.tmp" ["*.tmp/"] = false := by
  constructor <;> rfl

/-- C4 (amended): a file is excluded iff some pattern matches under the
stated rules applied to the pattern with all trailing slashes stripped:
if the stripped pattern starts with a star the path's suffix must equal
the rest; else if it ends with a star the path's prefix must equal the
rest; else some path component must equal the stripped pattern. -/
theorem claim_exclusion (relStr : String) (patterns : List String) :
    is_excluded relStr patterns = true ↔
      ∃ pattern ∈ patterns,
        (strStarts (trimSlashes pattern) "*" = true ∧
          strEnds relStr (strDropOne (trimSlashes pattern)) = true) ∨
        (strStarts (trimSlashes pattern) "*" = false ∧
          strEnds (trimSlashes pattern) "*" = true ∧
          strStarts relStr (strDropLast (trimSlashes pattern)) = true) ∨
        (strStarts (trimSlashes pattern) "*" = false ∧
          strEnds (trimSlashes pattern) "*" = false ∧
          ∃ c ∈ pathComponents relStr, c = (trimSlashes pattern).data) := by
  rw [is_excluded, List.any_eq_true]
  apply exists_congr
  intro pattern
  apply and_congr_right
  intro _
  rw [patternMatches]
  split_ifs with h1 h2
  · simp [h1]
  · simp [h1, h2]
  · simp only [h1, h2, trimSlashes_idem, List.any_eq_true, beq_iff_eq]
    simp

/- ── Map lookup lemmas ────────────────────────────────────────────────── -/

theorem mapFind_isSome {m : List (String × FileEntry)} {k : String} :
    (mapFind m k).isSome = true ↔ ∃ v, (k, v) ∈ m := by
  rw [mapFind, Option.isSome_map', List.find?_isSome]
  constructor
  · rintro ⟨pe, hpe, hk⟩
    have hk1 : pe.1 = k := by simpa using hk
    exact ⟨pe.2, by rw [← hk1]; exact hpe⟩
  · rintro ⟨v, hv⟩
    exact ⟨(k, v), hv, by simp⟩

theorem mapFind_eq_none {m : List (String × FileEntry)} {k : String} :
    mapFind m k = Option.none ↔ ∀ v, (k, v) ∉ m := by
  rw [mapFind, Option.map_eq_none', List.find?_eq_none]
  constructor
  · intro h v hv
    have := h (k, v) hv
    simp at this
  · intro h pe hpe
    simp only [beq_iff_eq]
    intro hk
    exact h pe.2 (by rw [← hk]; exact hpe)

theorem mapFind_mem {m : List (String × FileEntry)} {k : String}
    {v : FileEntry} (h : mapFind m k = some v) : (k, v) ∈ m := by
  rw [mapFind, Option.map_eq_some'] at h
  obtain ⟨pe, hfind, hv⟩ := h
  have hmem := List.mem_of_find?_eq_some hfind
  have hk : pe.1 = k := by simpa using List.find?_some hfind
  have : pe = (k, v) := by
    cases pe; simp_all
  exact this ▸ hmem

theorem mapFind_of_mem {m : List (String × FileEntry)} {k : String}
    {v : FileEntry} (hnd : (m.map (fun pe => pe.1)).Nodup)
    (h : (k, v) ∈ m) : mapFind m k = some v := by
  induction m with
  | nil => cases h
  | cons pe rest ih =>
    rcases List.mem_cons.mp h with rfl | hmem
    · simp [mapFind]
    · have hk : pe.1 ≠ k := by
        intro hk
        have : k ∈ rest.map (fun pe => pe.1) :=
          List.mem_map.mpr ⟨(k, v), hmem, rfl⟩
        rw [List.map_cons, List.nodup_cons] at hnd
        exact hnd.1 (hk ▸ this)
      have := ih (by rw [List.map_cons, List.nodup_cons] at hnd; exact hnd.2) hmem
      simpa [mapFind, List.find?_cons, hk] using this

theorem claim_exclusion_witness :
    is_excluded "node_modules/x" ["*.tmp", "node_modules/", ".git"] = true ↔
      ∃ pattern ∈ ["*.tmp", "node_modules/", ".git"],
        (strStarts (trimSlashes pattern) "*" = true ∧
          strEnds "node_modules/x" (strDropOne (trimSlashes pattern)) = true) ∨
        (strStarts (trimSlashes pattern) "*" = false ∧
          strEnds (trimSlashes pattern) "*" = true ∧
          strStarts "node_modules/x" (strDropLast (trimSlashes pattern)) = true) ∨
        (strStarts (trimSlashes pattern) "*" = false ∧
          strEnds (trimSlashes pattern) "*" = false ∧
          ∃ c ∈ pathComponents "node_modules/x",
            c = (trimSlashes pattern).data) :=
  claim_exclusion "node_modules/x" ["*.tmp", "node_modules/", ".git"]

/- ── Diff closed forms ────────────────────────────────────────────────── -/

theorem fold1_eq (older : Snapshot) :
    ∀ (l : List (String × FileEntry)) (d : SnapshotDiff),
      l.foldl (diffStep1 older) d =
        { added := d.added ++ (l.filter (addedP older)).map (fun pe => pe.1)
          modified := d.modified
            ++ (l.filter (modifiedP older)).map (fun pe => pe.1)
          removed := d.removed
          added_size := d.added_size
            + ((l.filter (addedP older)).map (fun pe => pe.2.size)).sum
          modified_size_delta := d.modified_size_delta
            + ((l.filter (modifiedP older)).map (deltaOf older)).sum
          removed_size := d.removed_size }
  | [], d => by simp
  | pe :: rest, d => by
    rw [List.foldl_cons, fold1_eq older rest]
    rcases h : mapFind older.files pe.1 with _ | o
    · simp [diffStep1, h, addedP, modifiedP, deltaOf, List.filter_cons,
        add_assoc]
    · by_cases hh : o.hash = pe.2.hash
      · simp [diffStep1, h, hh, addedP, modifiedP, List.filter_cons]
      · simp [diffStep1, h, hh, addedP, modifiedP, deltaOf,
          List.filter_cons, add_assoc]

theorem fold2_eq (newer : Snapshot) :
    ∀ (l : List (String × FileEntry)) (d : SnapshotDiff),
      l.foldl (diffStep2 newer) d =
        { added := d.added
          modified := d.modified
          removed := d.removed
            ++ (l.filter (removedP newer)).map (fun pe => pe.1)
          added_size := d.added_size
          modified_size_delta := d.modified_size_delta
          removed_size := d.removed_size
            + ((l.filter (removedP newer)).map (fun pe => pe.2.size)).sum }
  | [], d => by simp
  | pe :: rest, d => by
    rw [List.foldl_cons, fold2_eq newer rest]
    cases hs : (mapFind newer.files pe.1).isSome
    · simp [diffStep2, hs, removedP, List.filter_cons, add_assoc]
    · simp [diffStep2, hs, removedP, List.filter_cons]

theorem diff_snapshots_eq (older newer : Snapshot) :
    diff_snapshots older newer =
      { added := (newer.files.filter (addedP older)).map (fun pe => pe.1)
        modified :=
          (newer.files.filter (modifiedP older)).map (fun pe => pe.1)
        removed := (older.files.filter (removedP newer)).map (fun pe => pe.1)
        added_size :=
          ((newer.files.filter (addedP older)).map (fun pe => pe.2.size)).sum
        modified_size_delta :=
          ((newer.files.filter (modifiedP older)).map (deltaOf older)).sum
        removed_size :=
          ((older.files.filter (removedP newer)).map
            (fun pe => pe.2.size)).sum } := by
  rw [diff_snapshots, fold1_eq, fold2_eq]
  simp [emptyDiff]

theorem mem_added_iff (A B : Snapshot) (p : String) :
    p ∈ (diff_snapshots A B).added ↔
      (mapFind B.files p).isSome = true ∧ mapFind A.files p = Option.none := by
  rw [diff_snapshots_eq]
  simp only [List.mem_map, List.mem_filter]
  constructor
  · rintro ⟨pe, ⟨hmem, hP⟩, rfl⟩
    refine ⟨mapFind_isSome.mpr ⟨pe.2, by cases pe; exact hmem⟩, ?_⟩
    simpa [addedP, Option.isNone_iff_eq_none] using hP
  · rintro ⟨hsome, hnone⟩
    obtain ⟨v, hv⟩ := mapFind_isSome.mp hsome
    exact ⟨(p, v), ⟨hv, by simp [addedP, hnone]⟩, rfl⟩

theorem mem_modified_iff (A B : Snapshot) (p : String)
    (hB : (B.files.map (fun pe => pe.1)).Nodup) :
    p ∈ (diff_snapshots A B).modified ↔
      ∃ eo en, mapFind A.files p = some eo ∧ mapFind B.files p = some en ∧
        eo.hash ≠ en.hash := by
  rw [diff_snapshots_eq]
  simp only [List.mem_map, List.mem_filter]
  constructor
  · rintro ⟨pe, ⟨hmem, hP⟩, rfl⟩
    rcases h : mapFind A.files pe.1 with _ | eo
    · simp only [modifiedP, h] at hP
      exact Bool.noConfusion hP
    · refine ⟨eo, pe.2, rfl, mapFind_of_mem hB (by cases pe; exact hmem), ?_⟩
      simp only [modifiedP, h, bne_iff_ne, ne_eq] at hP
      exact hP
  · rintro ⟨eo, en, hA2, hB2, hne⟩
    refine ⟨(p, en), ⟨mapFind_mem hB2, ?_⟩, rfl⟩
    simp only [modifiedP, hA2, bne_iff_ne, ne_eq]
    exact hne

theorem mem_removed_iff (A B : Snapshot) (p : String) :
    p ∈ (diff_snapshots A B).removed ↔
      (mapFind A.files p).isSome = true ∧ mapFind B.files p = Option.none := by
  rw [diff_snapshots_eq]
  simp only [List.mem_map, List.mem_filter]
  constructor
  · rintro ⟨pe, ⟨hmem, hP⟩, rfl⟩
    refine ⟨mapFind_isSome.mpr ⟨pe.2, by cases pe; exact hmem⟩, ?_⟩
    simpa [removedP, Option.isNone_iff_eq_none, Option.not_isSome_iff_eq_none]
      using hP
  · rintro ⟨hsome, hnone⟩
    obtain ⟨v, hv⟩ := mapFind_isSome.mp hsome
    exact ⟨(p, v), ⟨hv, by simp [removedP, hnone]⟩, rfl⟩

/-- C8: for all snapshots A and B with well-formed (unique-key) file maps,
diff(A, B).added equals diff(B, A).removed as sets of paths and the
modified sets coincide; a path is added iff present in the newer map and
absent from the older, modified iff present in both with different
hashes, removed iff present only in the older; paths with equal hashes
appear in none of the three lists; and the three size fields are the sums
of the corresponding entries' contributions (signed newer minus older for
modified). -/
theorem claim_diff (A B : Snapshot)
    (hA : (A.files.map (fun pe => pe.1)).Nodup)
    (hB : (B.files.map (fun pe => pe.1)).Nodup) :
    (∀ p, p ∈ (diff_snapshots A B).added ↔
      p ∈ (diff_snapshots B A).removed) ∧
    (∀ p, p ∈ (diff_snapshots A B).modified ↔
      p ∈ (diff_snapshots B A).modified) ∧
    (∀ p, p ∈ (diff_snapshots A B).added ↔
      (mapFind B.files p).isSome = true ∧ mapFind A.files p = Option.none) ∧
    (∀ p, p ∈ (diff_snapshots A B).modified ↔
      ∃ eo en, mapFind A.files p = some eo ∧ mapFind B.files p = some en ∧
        eo.hash ≠ en.hash) ∧
    (∀ p, p ∈ (diff_snapshots A B).removed ↔
      (mapFind A.files p).isSome = true ∧ mapFind B.files p = Option.none) ∧
    (∀ p eo en, mapFind A.files p = some eo → mapFind B.files p = some en →
      eo.hash = en.hash →
      p ∉ (diff_snapshots A B).added ∧ p ∉ (diff_snapshots A B).modified ∧
        p ∉ (diff_snapshots A B).removed) ∧
    (diff_snapshots A B).added_size
      = ((B.files.filter (addedP A)).map (fun pe => pe.2.size)).sum ∧
    (diff_snapshots A B).modified_size_delta
      = ((B.files.filter (modifiedP A)).map (deltaOf A)).sum ∧
    (diff_snapshots A B).removed_size
      = ((A.files.filter (removedP B)).map (fun pe => pe.2.size)).sum := by
  refine ⟨?_, ?_, mem_added_iff A B, fun p => mem_modified_iff A B p hB,
    mem_removed_iff A B, ?_, ?_, ?_, ?_⟩
  · intro p
    rw [mem_added_iff, mem_removed_iff]
  · intro p
    rw [mem_modified_iff A B p hB, mem_modified_iff B A p hA]
    constructor
    · rintro ⟨eo, en, h1, h2, h3⟩
      exact ⟨en, eo, h2, h1, h3.symm⟩
    · rintro ⟨eo, en, h1, h2, h3⟩
      exact ⟨en, eo, h2, h1, h3.symm⟩
  · intro p eo en heo hen heq
    refine ⟨?_, ?_, ?_⟩
    · rw [mem_added_iff]
      rintro ⟨-, hnone⟩
      rw [heo] at hnone
      cases hnone
    · rw [mem_modified_iff A B p hB]
      rintro ⟨eo', en', heo', hen', hne⟩
      rw [heo] at heo'
      rw [hen] at hen'
      cases heo'
      cases hen'
      exact hne heq
    · rw [mem_removed_iff]
      rintro ⟨-, hnone⟩
      rw [hen] at hnone
      cases hnone
  · rw [diff_snapshots_eq]
  · rw [diff_snapshots_eq]
  · rw [diff_snapshots_eq]

theorem claim_diff_witness :
    ((snapD1.files.map (fun pe => pe.1)).Nodup ∧
      (snapD2.files.map (fun pe => pe.1)).Nodup) ∧
    (("c" : String) ∈ (diff_snapshots snapD1 snapD2).added ↔
      ("c" : String) ∈ (diff_snapshots snapD2 snapD1).removed) :=
  ⟨⟨by decide, by decide⟩,
    (claim_diff snapD1 snapD2 (by decide) (by decide)).1 "c"⟩

/-- C10: for every existing source directory that contains no regular,
non-excluded files, backup_target succeeds and commits a snapshot with an
empty files map and all counting statistics zero; and backup_target never
returns the NothingChanged error variant, on any input whatsoever. -/
theorem claim_empty_backup (hashFn : List Nat → String)
    (zc : Int → List Nat → List Nat) (encFn : List Nat → List Nat)
    (store0 : List (String × List Nat)) (settings : Settings)
    (name : String) (target : BackupTarget) (password : Option String)
    (createdAt : Nat) (snapId : String) (durationMs : Nat)
    (hex : target.fromExists = true)
    (hempty : target.walk.filter
      (fun f => !(is_excluded f.path target.exclude)) = []) :
    (∃ r, backup_target hashFn zc encFn store0 settings name target
        password createdAt snapId durationMs = .ok r ∧
      r.snapshot.files = [] ∧
      r.snapshot.stats.total_files = 0 ∧
      r.snapshot.stats.new_files = 0 ∧
      r.snapshot.stats.unchanged_files = 0 ∧
      r.snapshot.stats.total_size = 0 ∧
      r.snapshot.stats.stored_size = 0 ∧
      r.snapshot.stats.deduplicated_blobs = 0) ∧
    (∀ (hashFn2 : List Nat → String) (zc2 : Int → List Nat → List Nat)
        (encFn2 : List Nat → List Nat)
        (store2 : List (String × List Nat)) (settings2 : Settings)
        (name2 : String) (target2 : BackupTarget)
        (password2 : Option String) (createdAt2 : Nat) (snapId2 : String)
        (durationMs2 : Nat),
      backup_target hashFn2 zc2 encFn2 store2 settings2 name2 target2
        password2 createdAt2 snapId2 durationMs2
          ≠ .error BackupErr.nothingChanged) := by
  constructor
  · have heq : backup_target hashFn zc encFn store0 settings name target
        password createdAt snapId durationMs
        = .ok (backupRun hashFn
            (fun d => compress zc d
              (target.compression.getD settings.compression)
              settings.zstd_level)
            (if settings.encrypt && password.isSome then some encFn
              else Option.none)
            store0 name target.fromPath
            (target.compression.getD settings.compression)
            (settings.encrypt && password.isSome) createdAt snapId
            target.walk target.exclude durationMs) := by
      rw [backup_target, if_neg (by rw [hex]; exact fun h => h rfl)]
    refine ⟨_, heq, ?_⟩
    rw [backupRun, hempty]
    simp [SnapshotStats.zero]
  · intro hashFn2 zc2 encFn2 store2 settings2 name2 target2 password2
      createdAt2 snapId2 durationMs2
    rw [backup_target]
    split_ifs
    · simp
    · simp

theorem claim_empty_backup_witness :
    (demoTargetEmpty.fromExists = true ∧
      demoTargetEmpty.walk.filter
        (fun f => !(is_excluded f.path demoTargetEmpty.exclude)) = []) ∧
    (∃ r, backup_target demoHash demoZc (fun d => d) [] demoSettings "t"
        demoTargetEmpty Option.none 0 "id" 0 = .ok r ∧
      r.snapshot.files = [] ∧
      r.snapshot.stats.total_files = 0 ∧
      r.snapshot.stats.new_files = 0 ∧
      r.snapshot.stats.unchanged_files = 0 ∧
      r.snapshot.stats.total_size = 0 ∧
      r.snapshot.stats.stored_size = 0 ∧
      r.snapshot.stats.deduplicated_blobs = 0) :=
  ⟨⟨rfl, rfl⟩,
    (claim_empty_backup demoHash demoZc (fun d => d) [] demoSettings "t"
      demoTargetEmpty Option.none 0 "id" 0 rfl rfl).1⟩

/- ── Backup loop lemmas ───────────────────────────────────────────────── -/

theorem backupStep_dedup (hashFn : List Nat → String)
    (compressFn : List Nat → List Nat)
    (encFn : Option (List Nat → List Nat)) (st : LoopSt) (f : SrcFile)
    (hc : storeHas st.store (hashFn f.content) = true) :
    backupStep hashFn compressFn encFn st f =
      { st with
        total_original_size := st.total_original_size + f.content.length
        dedup_count := st.dedup_count + 1
        snapshot := add_file st.snapshot (normPath f.path)
          ⟨hashFn f.content, f.content.length, 0, f.mode, f.mtime,
            true⟩ } := by
  simp [backupStep, hc]

theorem backupStep_storing (hashFn : List Nat → String)
    (compressFn : List Nat → List Nat)
    (encFn : Option (List Nat → List Nat)) (st : LoopSt) (f : SrcFile)
    (hc : storeHas st.store (hashFn f.content) = false) :
    backupStep hashFn compressFn encFn st f =
      { st with
        total_original_size := st.total_original_size + f.content.length
        total_stored_size := st.total_stored_size
          + (encApply encFn (compressFn f.content)).length
        store := storePut st.store (hashFn f.content)
          (encApply encFn (compressFn f.content))
        snapshot := add_file st.snapshot (normPath f.path)
          ⟨hashFn f.content, f.content.length,
            (encApply encFn (compressFn f.content)).length, f.mode,
            f.mtime, false⟩
        evs := st.evs ++ [BEv.read (normPath f.path),
          BEv.stored (hashFn f.content)] } := by
  simp [backupStep, hc]

theorem add_file_files (s : Snapshot) (rel : String) (e : FileEntry) :
    (add_file s rel e).files = mapInsert rel e s.files := rfl

theorem add_file_stats_true (s : Snapshot) (rel : String) (e : FileEntry)
    (hd : e.deduplicated = true) :
    (add_file s rel e).stats =
      { s.stats with
        total_files := s.stats.total_files + 1
        total_size := s.stats.total_size + e.size
        deduplicated_blobs := s.stats.deduplicated_blobs + 1
        unchanged_files := s.stats.unchanged_files + 1 } := by
  simp [add_file, hd]

theorem add_file_stats_false (s : Snapshot) (rel : String) (e : FileEntry)
    (hd : e.deduplicated = false) :
    (add_file s rel e).stats =
      { s.stats with
        total_files := s.stats.total_files + 1
        total_size := s.stats.total_size + e.size
        stored_size := s.stats.stored_size + e.stored_size
        new_files := s.stats.new_files + 1 } := by
  simp [add_file, hd]

theorem mapInsert_perm {k : String} {v : FileEntry} :
    ∀ {m : List (String × FileEntry)},
      k ∉ m.map (fun pe => pe.1) → (mapInsert k v m).Perm ((k, v) :: m)
  | [], _ => by simp [mapInsert]
  | pe :: rest, h => by
    have hk1 : k ≠ pe.1 := by
      intro hk
      exact h (by simp [hk])
    have hkr : k ∉ rest.map (fun pe => pe.1) := by
      intro hk
      exact h (by simp [hk])
    cases pe with
    | mk k' v' =>
      by_cases h1 : strLt k k' = true
      · rw [mapInsert, if_pos h1]
      · rw [mapInsert, if_neg h1, if_neg hk1]
        exact (List.Perm.cons _ (mapInsert_perm hkr)).trans
          (List.Perm.swap _ _ _)

theorem statsInv_step (hashFn : List Nat → String)
    (compressFn : List Nat → List Nat)
    (encFn : Option (List Nat → List Nat)) (st : LoopSt) (f : SrcFile)
    (hfresh : normPath f.path ∉ st.snapshot.files.map (fun pe => pe.1))
    (hinv : statsInv st) :
    statsInv (backupStep hashFn compressFn encFn st f) := by
  obtain ⟨h1, h2, h3, h4, h5, h6, h7, h8, h9, h10⟩ := hinv
  by_cases hc : storeHas st.store (hashFn f.content) = true
  · rw [backupStep_dedup hashFn compressFn encFn st f hc]
    have hp := mapInsert_perm
      (v := (⟨hashFn f.content, f.content.length, 0, f.mode, f.mtime,
        true⟩ : FileEntry)) hfresh
    refine ⟨?_, ?_, ?_, ?_, ?_, ?_, ?_, ?_, ?_, ?_⟩ <;>
      simp [statsInv, add_file_files, add_file_stats_true, hp.length_eq,
        (hp.filter _).length_eq, ((hp.filter _).map _).sum_eq,
        ((hp.map _)).sum_eq, List.filter_cons, h1, h2, h3, h4, h5, h6, h7,
        h8, h9, h10, Nat.add_comm]
  · rw [backupStep_storing hashFn compressFn encFn st f
      (Bool.not_eq_true _ ▸ hc)]
    have hp := mapInsert_perm
      (v := (⟨hashFn f.content, f.content.length,
        (encApply encFn (compressFn f.content)).length, f.mode, f.mtime,
        false⟩ : FileEntry)) hfresh
    refine ⟨?_, ?_, ?_, ?_, ?_, ?_, ?_, ?_, ?_, ?_⟩ <;>
      simp [statsInv, add_file_files, add_file_stats_false, hp.length_eq,
        (hp.filter _).length_eq, ((hp.filter _).map _).sum_eq,
        ((hp.map _)).sum_eq, List.filter_cons, h1, h2, h3, h4, h5, h6, h7,
        h8, h9, h10, Nat.add_comm]

theorem backupStep_files (hashFn : List Nat → String)
    (compressFn : List Nat → List Nat)
    (encFn : Option (List Nat → List Nat)) (st : LoopSt) (f : SrcFile) :
    ∃ e : FileEntry, (backupStep hashFn compressFn encFn st f).snapshot.files
      = mapInsert (normPath f.path) e st.snapshot.files := by
  by_cases hc : storeHas st.store (hashFn f.content) = true
  · exact ⟨⟨hashFn f.content, f.content.length, 0, f.mode, f.mtime, true⟩,
      by rw [backupStep_dedup _ _ _ _ _ hc]; rfl⟩
  · exact ⟨⟨hashFn f.content, f.content.length,
        (encApply encFn (compressFn f.content)).length, f.mode, f.mtime,
        false⟩,
      by rw [backupStep_storing _ _ _ _ _ (Bool.not_eq_true _ ▸ hc)]; rfl⟩

theorem statsInv_fold (hashFn : List Nat → String)
    (compressFn : List Nat → List Nat)
    (encFn : Option (List Nat → List Nat)) :
    ∀ (fs : List SrcFile) (st : LoopSt),
      statsInv st →
      (∀ g ∈ fs, normPath g.path ∉ st.snapshot.files.map (fun pe => pe.1)) →
      (fs.map (fun g => normPath g.path)).Nodup →
      statsInv (fs.foldl (backupStep hashFn compressFn encFn) st)
  | [], _, hinv, _, _ => hinv
  | f :: rest, st, hinv, hfresh, hnd => by
    rw [List.foldl_cons]
    have hf := hfresh f (List.mem_cons_self f rest)
    obtain ⟨e, he⟩ := backupStep_files hashFn compressFn encFn st f
    have hp := mapInsert_perm (v := e) hf
    refine statsInv_fold hashFn compressFn encFn rest _
      (statsInv_step hashFn compressFn encFn st f hf hinv) ?_ ?_
    · intro g hg
      rw [he]
      intro hmem
      have hmem2 := (hp.map (fun pe => pe.1)).mem_iff.mp hmem
      rw [List.map_cons] at hmem2
      rcases List.mem_cons.mp hmem2 with heq | hmem3
      · rw [List.map_cons, List.nodup_cons] at hnd
        have heq' : normPath g.path = normPath f.path := heq
        exact hnd.1 (heq' ▸ List.mem_map.mpr ⟨g, hg, rfl⟩)
      · exact hfresh g (List.mem_cons_of_mem f hg) hmem3
    · rw [List.map_cons, List.nodup_cons] at hnd
      exact hnd.2

theorem backupStep_total_files (hashFn : List Nat → String)
    (compressFn : List Nat → List Nat)
    (encFn : Option (List Nat → List Nat)) (st : LoopSt) (f : SrcFile) :
    (backupStep hashFn compressFn encFn st f).snapshot.stats.total_files
      = st.snapshot.stats.total_files + 1 := by
  by_cases hc : storeHas st.store (hashFn f.content) = true
  · rw [backupStep_dedup _ _ _ _ _ hc]
    simp [add_file_stats_true]
  · rw [backupStep_storing _ _ _ _ _ (Bool.not_eq_true _ ▸ hc)]
    simp [add_file_stats_false]

theorem fold_total_files (hashFn : List Nat → String)
    (compressFn : List Nat → List Nat)
    (encFn : Option (List Nat → List Nat)) :
    ∀ (fs : List SrcFile) (st : LoopSt),
      ((fs.foldl (backupStep hashFn compressFn encFn)
        st).snapshot.stats.total_files)
        = st.snapshot.stats.total_files + fs.length
  | [], st => by simp
  | f :: rest, st => by
    rw [List.foldl_cons, fold_total_files hashFn compressFn encFn rest,
      backupStep_total_files]
    simp
    omega

/-- C6 counterexample: over a walk containing the two distinct source
paths a-backslash-b and a-slash-b (legal distinct file names on Unix),
both normalize to the same relative key, so the files map ends with one
entry while total_files counts two and total_size counts both sizes; the
claim's equation between the stats and the committed entries fails. -/
theorem claim_stats_cex :
    (backupRun demoHash (fun d => d) Option.none [] "t" "src"
      CompressionKind.none false 0 "id" cexWalk [] 0).snapshot.stats.total_files
        = 2 ∧
    (backupRun demoHash (fun d => d) Option.none [] "t" "src"
      CompressionKind.none false 0 "id" cexWalk [] 0).snapshot.files.length
        = 1 ∧
    (backupRun demoHash (fun d => d) Option.none [] "t" "src"
      CompressionKind.none false 0 "id" cexWalk [] 0).snapshot.stats.total_size
        = 2 ∧
    ((backupRun demoHash (fun d => d) Option.none [] "t" "src"
      CompressionKind.none false 0 "id" cexWalk [] 0).snapshot.files.map
        (fun pe => pe.2.size)).sum = 1 := by
  refine ⟨?_, ?_, ?_, ?_⟩ <;> decide

/-- C6 (amended): for every backup run whose walked files have pairwise
distinct normalized relative paths, the committed statistics satisfy
total_files = number of FileEntries, new_files = number of
non-deduplicated entries, unchanged_files = deduplicated_blobs = number
of deduplicated entries, modified_files = 0, total_size = sum of entry
sizes, stored_size = sum of stored_size over non-deduplicated entries,
and they agree field-by-field with the per-entry accumulation done by
Snapshot::add_file. -/
theorem claim_stats (hashFn : List Nat → String)
    (compressFn : List Nat → List Nat)
    (encFn : Option (List Nat → List Nat))
    (store0 : List (String × List Nat)) (name sourcePath : String)
    (compression : CompressionKind) (encrypted : Bool) (createdAt : Nat)
    (snapId : String) (walk : List SrcFile) (excl : List String)
    (durationMs : Nat)
    (hnd : ((walk.filter (fun f => !(is_excluded f.path excl))).map
      (fun f => normPath f.path)).Nodup) :
    ∀ r, r = backupRun hashFn compressFn encFn store0 name sourcePath
        compression encrypted createdAt snapId walk excl durationMs →
      (r.snapshot.stats.total_files = r.snapshot.files.length ∧
        r.snapshot.stats.new_files
          = (r.snapshot.files.filter (fun pe => !pe.2.deduplicated)).length ∧
        r.snapshot.stats.unchanged_files
          = (r.snapshot.files.filter (fun pe => pe.2.deduplicated)).length ∧
        r.snapshot.stats.deduplicated_blobs
          = (r.snapshot.files.filter (fun pe => pe.2.deduplicated)).length ∧
        r.snapshot.stats.modified_files = 0 ∧
        r.snapshot.stats.total_size
          = (r.snapshot.files.map (fun pe => pe.2.size)).sum ∧
        r.snapshot.stats.stored_size
          = ((r.snapshot.files.filter (fun pe => !pe.2.deduplicated)).map
              (fun pe => pe.2.stored_size)).sum) ∧
      (r.snapshot.stats.total_files = r.accStats.total_files ∧
        r.snapshot.stats.new_files = r.accStats.new_files ∧
        r.snapshot.stats.modified_files = r.accStats.modified_files ∧
        r.snapshot.stats.unchanged_files = r.accStats.unchanged_files ∧
        r.snapshot.stats.total_size = r.accStats.total_size ∧
        r.snapshot.stats.stored_size = r.accStats.stored_size ∧
        r.snapshot.stats.deduplicated_blobs
          = r.accStats.deduplicated_blobs) := by
  intro r hr
  have hinv := statsInv_fold hashFn compressFn encFn
    (walk.filter (fun f => !(is_excluded f.path excl)))
    ⟨{ id := snapId, target_name := name, source_path := sourcePath,
        created_at := createdAt, compression := compression,
        encrypted := encrypted, files := [], stats := SnapshotStats.zero },
      store0, 0, 0, 0, []⟩
    (by
      refine ⟨rfl, rfl, rfl, rfl, rfl, rfl, rfl, rfl, rfl, rfl⟩)
    (by intro g hg h; simp at h) hnd
  have htf := fold_total_files hashFn compressFn encFn
    (walk.filter (fun f => !(is_excluded f.path excl)))
    ⟨{ id := snapId, target_name := name, source_path := sourcePath,
        created_at := createdAt, compression := compression,
        encrypted := encrypted, files := [], stats := SnapshotStats.zero },
      store0, 0, 0, 0, []⟩
  obtain ⟨i1, i2, i3, i4, i5, i6, i7, i8, i9, i10⟩ := hinv
  have hsplit := List.length_eq_length_filter_add
    (l := ((walk.filter (fun f => !(is_excluded f.path excl))).foldl
      (backupStep hashFn compressFn encFn)
      ⟨{ id := snapId, target_name := name, source_path := sourcePath,
          created_at := createdAt, compression := compression,
          encrypted := encrypted, files := [],
          stats := SnapshotStats.zero },
        store0, 0, 0, 0, []⟩).snapshot.files)
    (fun pe => pe.2.deduplicated)
  subst hr
  rw [backupRun]
  refine ⟨⟨?_, ?_, ?_, ?_, ?_, ?_, ?_⟩, ?_, ?_, ?_, ?_, ?_, ?_, ?_⟩ <;>
    simp only [SnapshotStats.zero] at * <;> omega

theorem claim_stats_witness :
    ((demoWalk.filter (fun f => !(is_excluded f.path []))).map
      (fun f => normPath f.path)).Nodup ∧
    (backupRun demoHash (fun d => d) Option.none [] "t" "src"
      CompressionKind.none false 0 "id" demoWalk [] 0).snapshot.stats.total_files
      = (backupRun demoHash (fun d => d) Option.none [] "t" "src"
        CompressionKind.none false 0 "id" demoWalk [] 0).snapshot.files.length :=
  ⟨by decide,
    ((claim_stats demoHash (fun d => d) Option.none [] "t" "src"
      CompressionKind.none false 0 "id" demoWalk [] 0 (by decide))
      _ rfl).1.1⟩

theorem any_filter_ne (bs : List (String × List Nat)) (h h' : String)
    (hne : h ≠ h') :
    (bs.filter (fun b => b.1 != h')).any (fun b => b.1 == h)
      = bs.any (fun b => b.1 == h) := by
  induction bs with
  | nil => rfl
  | cons b t ih =>
    by_cases hb : b.1 = h'
    · rw [List.filter_cons_of_neg (by simp [hb]), List.any_cons]
      have hbh : (b.1 == h) = false := by
        simp [hb]
        exact Ne.symm hne
      rw [hbh, Bool.false_or, ih]
    · rw [List.filter_cons_of_pos (by simp [hb]), List.any_cons,
        List.any_cons, ih]

theorem storeHas_put (bs : List (String × List Nat)) (h' : String)
    (v : List Nat) (h : String) :
    storeHas (storePut bs h' v) h = (h' == h || storeHas bs h) := by
  by_cases heq : h = h'
  · subst heq
    simp [storePut, storeHas]
  · rw [storePut, storeHas, List.any_cons, any_filter_ne bs h h' heq,
      storeHas]

theorem filter_eq_of_ne (bs : List (String × List Nat)) (h h' : String)
    (hne : h ≠ h') :
    (bs.filter (fun b => b.1 != h')).filter (fun b => b.1 == h)
      = bs.filter (fun b => b.1 == h) := by
  rw [List.filter_filter]
  apply List.filter_congr
  intro b _
  by_cases hb : b.1 = h
  · simp [hb, hne]
  · simp [hb]

theorem storeCount_put_self (bs : List (String × List Nat)) (h : String)
    (v : List Nat) : storeCount (storePut bs h v) h = 1 := by
  rw [storeCount, storePut, List.filter_cons_of_pos (by simp)]
  have : (bs.filter (fun b => b.1 != h)).filter (fun b => b.1 == h)
      = [] := by
    rw [List.filter_filter]
    rw [List.filter_eq_nil_iff]
    intro b _
    by_cases hb : b.1 = h <;> simp [hb]
  rw [this]
  rfl

theorem storeCount_put_other (bs : List (String × List Nat))
    (h' : String) (v : List Nat) (h : String) (hne : h ≠ h') :
    storeCount (storePut bs h' v) h = storeCount bs h := by
  rw [storeCount, storePut,
    List.filter_cons_of_neg (by simp; exact Ne.symm hne),
    filter_eq_of_ne bs h h' hne, storeCount]

theorem storeHas_eq_false_iff (bs : List (String × List Nat))
    (h : String) : storeHas bs h = false ↔ storeCount bs h = 0 := by
  rw [storeHas, storeCount, List.length_eq_zero, List.filter_eq_nil_iff]
  rw [List.any_eq_false]

theorem backupStep_storeHas_mono (hashFn : List Nat → String)
    (compressFn : List Nat → List Nat)
    (encFn : Option (List Nat → List Nat)) (st : LoopSt) (f : SrcFile)
    (h : String) (hh : storeHas st.store h = true) :
    storeHas ((backupStep hashFn compressFn encFn st f).store) h = true := by
  by_cases hc : storeHas st.store (hashFn f.content) = true
  · rw [backupStep_dedup _ _ _ _ _ hc]
    exact hh
  · rw [backupStep_storing _ _ _ _ _ (Bool.not_eq_true _ ▸ hc)]
    show storeHas (storePut st.store (hashFn f.content) _) h = true
    rw [storeHas_put]
    simp [hh]

theorem fold_storeHas_mono (hashFn : List Nat → String)
    (compressFn : List Nat → List Nat)
    (encFn : Option (List Nat → List Nat)) :
    ∀ (fs : List SrcFile) (st : LoopSt) (h : String),
      storeHas st.store h = true →
      storeHas ((fs.foldl (backupStep hashFn compressFn encFn)
        st).store) h = true
  | [], _, _, hh => hh
  | f :: rest, st, h, hh => by
    rw [List.foldl_cons]
    exact fold_storeHas_mono hashFn compressFn encFn rest _ h
      (backupStep_storeHas_mono hashFn compressFn encFn st f h hh)

theorem fold_storeHas_false (hashFn : List Nat → String)
    (compressFn : List Nat → List Nat)
    (encFn : Option (List Nat → List Nat)) :
    ∀ (fs : List SrcFile) (st : LoopSt) (h : String),
      storeHas st.store h = false →
      (∀ g ∈ fs, hashFn g.content ≠ h) →
      storeHas ((fs.foldl (backupStep hashFn compressFn encFn)
        st).store) h = false
  | [], _, _, hh, _ => hh
  | f :: rest, st, h, hh, hne => by
    rw [List.foldl_cons]
    refine fold_storeHas_false hashFn compressFn encFn rest _ h ?_
      (fun g hg => hne g (List.mem_cons_of_mem f hg))
    by_cases hc : storeHas st.store (hashFn f.content) = true
    · rw [backupStep_dedup _ _ _ _ _ hc]
      exact hh
    · rw [backupStep_storing _ _ _ _ _ (Bool.not_eq_true _ ▸ hc)]
      show storeHas (storePut st.store (hashFn f.content) _) h = false
      rw [storeHas_put, hh, Bool.or_false]
      simp
      exact hne f (List.mem_cons_self f rest)

theorem backupStep_storeCount_one (hashFn : List Nat → String)
    (compressFn : List Nat → List Nat)
    (encFn : Option (List Nat → List Nat)) (st : LoopSt) (f : SrcFile)
    (h : String) (h1 : storeCount st.store h = 1) :
    storeCount ((backupStep hashFn compressFn encFn st f).store) h = 1 := by
  have hhas : storeHas st.store h = true := by
    cases hq : storeHas st.store h
    · rw [storeHas_eq_false_iff] at hq
      omega
    · rfl
  by_cases hc : storeHas st.store (hashFn f.content) = true
  · rw [backupStep_dedup _ _ _ _ _ hc]
    exact h1
  · have hne : h ≠ hashFn f.content := by
      intro heq
      rw [← heq, hhas] at hc
      exact hc rfl
    rw [backupStep_storing _ _ _ _ _ (Bool.not_eq_true _ ▸ hc)]
    show storeCount (storePut st.store (hashFn f.content) _) h = 1
    rw [storeCount_put_other _ _ _ _ hne]
    exact h1

theorem fold_storeCount_one (hashFn : List Nat → String)
    (compressFn : List Nat → List Nat)
    (encFn : Option (List Nat → List Nat)) :
    ∀ (fs : List SrcFile) (st : LoopSt) (h : String),
      storeCount st.store h = 1 →
      storeCount ((fs.foldl (backupStep hashFn compressFn encFn)
        st).store) h = 1
  | [], _, _, h1 => h1
  | f :: rest, st, h, h1 => by
    rw [List.foldl_cons]
    exact fold_storeCount_one hashFn compressFn encFn rest _ h
      (backupStep_storeCount_one hashFn compressFn encFn st f h h1)

/- ── Event trace lemmas ───────────────────────────────────────────────── -/

theorem fold_stored_filter (hashFn : List Nat → String)
    (compressFn : List Nat → List Nat)
    (encFn : Option (List Nat → List Nat)) :
    ∀ (fs : List SrcFile) (st : LoopSt) (h : String),
      storeHas st.store h = true →
      ((fs.foldl (backupStep hashFn compressFn encFn) st).evs).filter
        (fun e => e == BEv.stored h)
        = st.evs.filter (fun e => e == BEv.stored h)
  | [], _, _, _ => rfl
  | f :: rest, st, h, hh => by
    rw [List.foldl_cons]
    rw [fold_stored_filter hashFn compressFn encFn rest _ h
      (backupStep_storeHas_mono hashFn compressFn encFn st f h hh)]
    by_cases hc : storeHas st.store (hashFn f.content) = true
    · rw [backupStep_dedup _ _ _ _ _ hc]
    · have hne : hashFn f.content ≠ h := by
        intro heq
        rw [heq, hh] at hc
        exact hc rfl
      rw [backupStep_storing _ _ _ _ _ (Bool.not_eq_true _ ▸ hc)]
      show (st.evs ++ [BEv.read (normPath f.path),
        BEv.stored (hashFn f.content)]).filter _ = _
      rw [List.filter_append]
      have hnil : ([BEv.read (normPath f.path),
          BEv.stored (hashFn f.content)]).filter
            (fun e => e == BEv.stored h) = [] := by
        simp [hne]
      rw [hnil, List.append_nil]

theorem fold_stored_filter_ne (hashFn : List Nat → String)
    (compressFn : List Nat → List Nat)
    (encFn : Option (List Nat → List Nat)) :
    ∀ (fs : List SrcFile) (st : LoopSt) (h : String),
      (∀ g ∈ fs, hashFn g.content ≠ h) →
      ((fs.foldl (backupStep hashFn compressFn encFn) st).evs).filter
        (fun e => e == BEv.stored h)
        = st.evs.filter (fun e => e == BEv.stored h)
  | [], _, _, _ => rfl
  | f :: rest, st, h, hne => by
    rw [List.foldl_cons]
    rw [fold_stored_filter_ne hashFn compressFn encFn rest _ h
      (fun g hg => hne g (List.mem_cons_of_mem f hg))]
    by_cases hc : storeHas st.store (hashFn f.content) = true
    · rw [backupStep_dedup _ _ _ _ _ hc]
    · rw [backupStep_storing _ _ _ _ _ (Bool.not_eq_true _ ▸ hc)]
      show (st.evs ++ [BEv.read (normPath f.path),
        BEv.stored (hashFn f.content)]).filter _ = _
      rw [List.filter_append]
      have hnil : ([BEv.read (normPath f.path),
          BEv.stored (hashFn f.content)]).filter
            (fun e => e == BEv.stored h) = [] := by
        simp
        exact hne f (List.mem_cons_self f rest)
      rw [hnil, List.append_nil]

theorem fold_reads (hashFn : List Nat → String)
    (compressFn : List Nat → List Nat)
    (encFn : Option (List Nat → List Nat)) :
    ∀ (fs : List SrcFile) (st : LoopSt) (p : String),
      BEv.read p ∈ (fs.foldl (backupStep hashFn compressFn encFn) st).evs →
      BEv.read p ∈ st.evs ∨ p ∈ fs.map (fun g => normPath g.path)
  | [], _, _, hm => .inl hm
  | f :: rest, st, p, hm => by
    rw [List.foldl_cons] at hm
    rcases fold_reads hashFn compressFn encFn rest _ p hm with hin | hin
    · by_cases hc : storeHas st.store (hashFn f.content) = true
      · rw [backupStep_dedup _ _ _ _ _ hc] at hin
        exact .inl hin
      · rw [backupStep_storing _ _ _ _ _ (Bool.not_eq_true _ ▸ hc)] at hin
        have hin2 : BEv.read p ∈ st.evs ++ [BEv.read (normPath f.path),
            BEv.stored (hashFn f.content)] := hin
        rcases List.mem_append.mp hin2 with h1 | h2
        · exact .inl h1
        · rcases List.mem_cons.mp h2 with heq | h3
          · have : p = normPath f.path := by
              injection heq
            exact .inr (by rw [List.map_cons, this]; exact
              List.mem_cons_self _ _)
          · rcases List.mem_cons.mp h3 with heq2 | h4
            · cases heq2
            · cases h4
    · exact .inr (by
        rw [List.map_cons]
        exact List.mem_cons_of_mem _ hin)

/- ── Ordered-map insert lookup lemmas ─────────────────────────────────── -/

theorem mapFind_insert_self (k : String) (v : FileEntry) :
    ∀ m : List (String × FileEntry), mapFind (mapInsert k v m) k = some v
  | [] => by simp [mapInsert, mapFind]
  | (k', v') :: rest => by
    by_cases h1 : strLt k k' = true
    · rw [mapInsert, if_pos h1]
      simp [mapFind]
    · by_cases h2 : k = k'
      · rw [mapInsert, if_neg h1, if_pos h2]
        simp [mapFind]
      · rw [mapInsert, if_neg h1, if_neg h2, mapFind,
          List.find?_cons_of_neg _ (by simp; exact Ne.symm h2)]
        exact mapFind_insert_self k v rest

theorem mapFind_insert_ne (k' : String) (v : FileEntry) (k : String)
    (hne : k' ≠ k) :
    ∀ m : List (String × FileEntry),
      mapFind (mapInsert k' v m) k = mapFind m k
  | [] => by
    rw [mapInsert, mapFind,
      List.find?_cons_of_neg _ (by simp; exact hne)]
    rfl
  | (a, b) :: rest => by
    by_cases h1 : strLt k' a = true
    · rw [mapInsert, if_pos h1, mapFind,
        List.find?_cons_of_neg _ (by simp; exact hne)]
      rfl
    · by_cases h2 : k' = a
      · rw [mapInsert, if_neg h1, if_pos h2, mapFind,
          List.find?_cons_of_neg _ (by simp; exact hne), mapFind,
          List.find?_cons_of_neg _ (by simp; rw [← h2]; exact hne)]
      · rw [mapInsert, if_neg h1, if_neg h2]
        by_cases ha : a = k
        · rw [mapFind, List.find?_cons_of_pos _ (by simp [ha]), mapFind,
            List.find?_cons_of_pos _ (by simp [ha])]
        · rw [mapFind, List.find?_cons_of_neg _ (by simp [ha]), mapFind,
            List.find?_cons_of_neg _ (by simp [ha])]
          exact mapFind_insert_ne k' v k hne rest

theorem fold_mapFind (hashFn : List Nat → String)
    (compressFn : List Nat → List Nat)
    (encFn : Option (List Nat → List Nat)) :
    ∀ (fs : List SrcFile) (st : LoopSt) (k : String) (e : FileEntry),
      mapFind st.snapshot.files k = some e →
      (∀ g ∈ fs, normPath g.path ≠ k) →
      mapFind ((fs.foldl (backupStep hashFn compressFn encFn)
        st).snapshot.files) k = some e
  | [], _, _, _, hm, _ => hm
  | f :: rest, st, k, e, hm, hne => by
    rw [List.foldl_cons]
    refine fold_mapFind hashFn compressFn encFn rest _ k e ?_
      (fun g hg => hne g (List.mem_cons_of_mem f hg))
    obtain ⟨e', he'⟩ := backupStep_files hashFn compressFn encFn st f
    rw [he', mapFind_insert_ne (normPath f.path) e' k
      (hne f (List.mem_cons_self f rest))]
    exact hm

/- ── C2: deduplication correctness ────────────────────────────────────── -/

theorem nodup_parts {A B C : List SrcFile} {f1 f2 : SrcFile}
    (hnd : ((A ++ f1 :: (B ++ f2 :: C)).map
      (fun g => normPath g.path)).Nodup) :
    normPath f1.path ≠ normPath f2.path ∧
    (∀ g ∈ B, normPath g.path ≠ normPath f1.path) ∧
    (∀ g ∈ C, normPath g.path ≠ normPath f1.path) ∧
    (∀ g ∈ A, normPath g.path ≠ normPath f2.path) ∧
    (∀ g ∈ B, normPath g.path ≠ normPath f2.path) ∧
    (∀ g ∈ C, normPath g.path ≠ normPath f2.path) := by
  rw [List.map_append, List.map_cons, List.map_append, List.map_cons,
    List.nodup_append] at hnd
  obtain ⟨-, hx, hdisj⟩ := hnd
  rw [List.nodup_cons] at hx
  obtain ⟨hx1, hQ⟩ := hx
  rw [List.nodup_append] at hQ
  obtain ⟨-, hy, hdisj2⟩ := hQ
  rw [List.nodup_cons] at hy
  obtain ⟨hy1, -⟩ := hy
  refine ⟨?_, ?_, ?_, ?_, ?_, ?_⟩
  · intro heq
    exact hx1 (heq ▸ List.mem_append_right _ (List.mem_cons_self _ _))
  · intro g hg heq
    exact hx1 (heq ▸ List.mem_append_left _
      (List.mem_map.mpr ⟨g, hg, rfl⟩))
  · intro g hg heq
    exact hx1 (heq ▸ List.mem_append_right _
      (List.mem_cons_of_mem _ (List.mem_map.mpr ⟨g, hg, rfl⟩)))
  · intro g hg heq
    exact hdisj (List.mem_map.mpr ⟨g, hg, rfl⟩)
      (heq ▸ List.mem_cons_of_mem _
        (List.mem_append_right _ (List.mem_cons_self _ _)))
  · intro g hg heq
    exact hdisj2 (List.mem_map.mpr ⟨g, hg, rfl⟩)
      (heq ▸ List.mem_cons_self _ _)
  · intro g hg heq
    exact hy1 (heq.symm ▸ List.mem_map.mpr ⟨g, hg, rfl⟩)

theorem dedup_loop (hashFn : List Nat → String)
    (compressFn : List Nat → List Nat)
    (encFn : Option (List Nat → List Nat)) (A B C : List SrcFile)
    (f1 f2 : SrcFile) (st0 : LoopSt)
    (hcontent : f1.content = f2.content)
    (h0 : storeHas st0.store (hashFn f1.content) = false)
    (hbefore : ∀ g ∈ A, hashFn g.content ≠ hashFn f1.content)
    (hevs0 : st0.evs = [])
    (hne12 : normPath f1.path ≠ normPath f2.path)
    (hB1 : ∀ g ∈ B, normPath g.path ≠ normPath f1.path)
    (hC1 : ∀ g ∈ C, normPath g.path ≠ normPath f1.path)
    (hA2 : ∀ g ∈ A, normPath g.path ≠ normPath f2.path)
    (hB2 : ∀ g ∈ B, normPath g.path ≠ normPath f2.path)
    (hC2 : ∀ g ∈ C, normPath g.path ≠ normPath f2.path) :
    ∀ fin, fin = (A ++ f1 :: (B ++ f2 :: C)).foldl
        (backupStep hashFn compressFn encFn) st0 →
      storeCount fin.store (hashFn f1.content) = 1 ∧
      mapFind fin.snapshot.files (normPath f1.path)
        = some ⟨hashFn f1.content, f1.content.length,
            (encApply encFn (compressFn f1.content)).length, f1.mode,
            f1.mtime, false⟩ ∧
      mapFind fin.snapshot.files (normPath f2.path)
        = some ⟨hashFn f2.content, f2.content.length, 0, f2.mode,
            f2.mtime, true⟩ ∧
      (fin.evs.filter
        (fun e => e == BEv.stored (hashFn f1.content))).length = 1 ∧
      BEv.read (normPath f2.path) ∉ fin.evs := by
  intro fin hfin
  rw [List.foldl_append, List.foldl_cons, List.foldl_append,
    List.foldl_cons] at hfin
  have hstoreA : storeHas (A.foldl (backupStep hashFn compressFn encFn)
      st0).store (hashFn f1.content) = false :=
    fold_storeHas_false hashFn compressFn encFn A st0 _ h0 hbefore
  have hstep1 := backupStep_storing hashFn compressFn encFn
    (A.foldl (backupStep hashFn compressFn encFn) st0) f1 hstoreA
  have hevsA : ((A.foldl (backupStep hashFn compressFn encFn)
      st0).evs).filter (fun e => e == BEv.stored (hashFn f1.content))
      = [] := by
    rw [fold_stored_filter_ne hashFn compressFn encFn A st0 _ hbefore,
      hevs0]
    rfl
  -- facts after processing f1
  have hs1has : storeHas ((backupStep hashFn compressFn encFn
      (A.foldl (backupStep hashFn compressFn encFn) st0)
      f1).store) (hashFn f1.content) = true := by
    rw [hstep1]
    show storeHas (storePut _ _ _) _ = true
    rw [storeHas_put]
    simp
  have hs1count : storeCount ((backupStep hashFn compressFn encFn
      (A.foldl (backupStep hashFn compressFn encFn) st0)
      f1).store) (hashFn f1.content) = 1 := by
    rw [hstep1]
    exact storeCount_put_self _ _ _
  have hs1find : mapFind ((backupStep hashFn compressFn encFn
      (A.foldl (backupStep hashFn compressFn encFn) st0)
      f1).snapshot.files) (normPath f1.path)
      = some ⟨hashFn f1.content, f1.content.length,
          (encApply encFn (compressFn f1.content)).length, f1.mode,
          f1.mtime, false⟩ := by
    rw [hstep1]
    exact mapFind_insert_self _ _ _
  have hs1ev : ((backupStep hashFn compressFn encFn
      (A.foldl (backupStep hashFn compressFn encFn) st0)
      f1).evs).filter (fun e => e == BEv.stored (hashFn f1.content))
      = [BEv.stored (hashFn f1.content)] := by
    rw [hstep1]
    show ((A.foldl (backupStep hashFn compressFn encFn) st0).evs
      ++ [BEv.read (normPath f1.path),
        BEv.stored (hashFn f1.content)]).filter _ = _
    rw [List.filter_append, hevsA]
    simp
  -- facts after processing B
  have hsBhas := fold_storeHas_mono hashFn compressFn encFn B _ _ hs1has
  have hsBcount := fold_storeCount_one hashFn compressFn encFn B _ _
    hs1count
  have hsBfind := fold_mapFind hashFn compressFn encFn B _ _ _ hs1find hB1
  have hsBev : ((B.foldl (backupStep hashFn compressFn encFn)
      (backupStep hashFn compressFn encFn
        (A.foldl (backupStep hashFn compressFn encFn) st0) f1)).evs).filter
      (fun e => e == BEv.stored (hashFn f1.content))
      = [BEv.stored (hashFn f1.content)] := by
    rw [fold_stored_filter hashFn compressFn encFn B _ _ hs1has, hs1ev]
  -- the f2 step is a dedup hit
  have hhash2 : hashFn f2.content = hashFn f1.content := by
    rw [hcontent]
  have h2has : storeHas ((B.foldl (backupStep hashFn compressFn encFn)
      (backupStep hashFn compressFn encFn
        (A.foldl (backupStep hashFn compressFn encFn) st0)
        f1)).store) (hashFn f2.content) = true := by
    rw [hhash2]
    exact hsBhas
  have hstep2 := backupStep_dedup hashFn compressFn encFn
    (B.foldl (backupStep hashFn compressFn encFn)
      (backupStep hashFn compressFn encFn
        (A.foldl (backupStep hashFn compressFn encFn) st0) f1)) f2 h2has
  have hs2count : storeCount ((backupStep hashFn compressFn encFn
      (B.foldl (backupStep hashFn compressFn encFn)
        (backupStep hashFn compressFn encFn
          (A.foldl (backupStep hashFn compressFn encFn) st0) f1))
      f2).store) (hashFn f1.content) = 1 := by
    rw [hstep2]
    exact hsBcount
  have hs2has : storeHas ((backupStep hashFn compressFn encFn
      (B.foldl (backupStep hashFn compressFn encFn)
        (backupStep hashFn compressFn encFn
          (A.foldl (backupStep hashFn compressFn encFn) st0) f1))
      f2).store) (hashFn f1.content) = true := by
    rw [hstep2]
    exact hsBhas
  have hs2find1 : mapFind ((backupStep hashFn compressFn encFn
      (B.foldl (backupStep hashFn compressFn encFn)
        (backupStep hashFn compressFn encFn
          (A.foldl (backupStep hashFn compressFn encFn) st0) f1))
      f2).snapshot.files) (normPath f1.path)
      = some ⟨hashFn f1.content, f1.content.length,
          (encApply encFn (compressFn f1.content)).length, f1.mode,
          f1.mtime, false⟩ := by
    rw [hstep2]
    show mapFind (mapInsert (normPath f2.path) _ _) _ = _
    rw [mapFind_insert_ne _ _ _ (Ne.symm hne12)]
    exact hsBfind
  have hs2find2 : mapFind ((backupStep hashFn compressFn encFn
      (B.foldl (backupStep hashFn compressFn encFn)
        (backupStep hashFn compressFn encFn
          (A.foldl (backupStep hashFn compressFn encFn) st0) f1))
      f2).snapshot.files) (normPath f2.path)
      = some ⟨hashFn f2.content, f2.content.length, 0, f2.mode,
          f2.mtime, true⟩ := by
    rw [hstep2]
    exact mapFind_insert_self _ _ _
  have hs2ev : ((backupStep hashFn compressFn encFn
      (B.foldl (backupStep hashFn compressFn encFn)
        (backupStep hashFn compressFn encFn
          (A.foldl (backupStep hashFn compressFn encFn) st0) f1))
      f2).evs).filter (fun e => e == BEv.stored (hashFn f1.content))
      = [BEv.stored (hashFn f1.content)] := by
    rw [hstep2]
    exact hsBev
  -- conclusions after processing C
  refine ⟨?_, ?_, ?_, ?_, ?_⟩
  · rw [hfin]
    exact fold_storeCount_one hashFn compressFn encFn C _ _ hs2count
  · rw [hfin]
    exact fold_mapFind hashFn compressFn encFn C _ _ _ hs2find1 hC1
  · rw [hfin]
    exact fold_mapFind hashFn compressFn encFn C _ _ _ hs2find2 hC2
  · rw [hfin]
    rw [fold_stored_filter hashFn compressFn encFn C _ _ hs2has, hs2ev]
    rfl
  · rw [hfin]
    intro hmem
    rcases fold_reads hashFn compressFn encFn C _ _ hmem with hm2 | hmC
    · rw [hstep2] at hm2
      have hm2' : BEv.read (normPath f2.path)
          ∈ (B.foldl (backupStep hashFn compressFn encFn)
            (backupStep hashFn compressFn encFn
              (A.foldl (backupStep hashFn compressFn encFn) st0)
              f1)).evs := hm2
      rcases fold_reads hashFn compressFn encFn B _ _ hm2' with hm3 | hmB
      · rw [hstep1] at hm3
        have hm3' : BEv.read (normPath f2.path)
            ∈ (A.foldl (backupStep hashFn compressFn encFn) st0).evs
              ++ [BEv.read (normPath f1.path),
                BEv.stored (hashFn f1.content)] := hm3
        rcases List.mem_append.mp hm3' with hm4 | hm5
        · rcases fold_reads hashFn compressFn encFn A _ _ hm4
            with hm6 | hmA
          · rw [hevs0] at hm6
            cases hm6
          · obtain ⟨g, hg, hgeq⟩ := List.mem_map.mp hmA
            exact hA2 g hg hgeq
        · rcases List.mem_cons.mp hm5 with heq | hm7
          · have : normPath f2.path = normPath f1.path := by
              injection heq
            exact hne12 this.symm
          · rcases List.mem_cons.mp hm7 with heq2 | hm8
            · cases heq2
            · cases hm8
      · obtain ⟨g, hg, hgeq⟩ := List.mem_map.mp hmB
        exact hB2 g hg hgeq
    · obtain ⟨g, hg, hgeq⟩ := List.mem_map.mp hmC
      exact hC2 g hg hgeq

/-- C2: in any single backup run over a tree in which two distinct
relative paths hold byte-identical content, the blob store not already
containing that content and no earlier walked file sharing its hash, the
blob store afterwards contains exactly one blob for that content, the
first path's FileEntry has deduplicated = false, the second path's
FileEntry has deduplicated = true and stored_size = 0, exactly one store
of that blob is performed, and the second path's content is never read
for storage. -/
theorem claim_dedup (hashFn : List Nat → String)
    (compressFn : List Nat → List Nat)
    (encFn : Option (List Nat → List Nat))
    (store0 : List (String × List Nat)) (name sourcePath : String)
    (compression : CompressionKind) (encrypted : Bool) (createdAt : Nat)
    (snapId : String) (walk : List SrcFile) (excl : List String)
    (durationMs : Nat) (A B C : List SrcFile) (f1 f2 : SrcFile)
    (hwalk : walk.filter (fun f => !(is_excluded f.path excl))
      = A ++ f1 :: (B ++ f2 :: C))
    (hcontent : f1.content = f2.content)
    (hnd : ((A ++ f1 :: (B ++ f2 :: C)).map
      (fun g => normPath g.path)).Nodup)
    (hbefore : ∀ g ∈ A, hashFn g.content ≠ hashFn f1.content)
    (h0 : storeHas store0 (hashFn f1.content) = false) :
    ∀ r, r = backupRun hashFn compressFn encFn store0 name sourcePath
        compression encrypted createdAt snapId walk excl durationMs →
      storeCount r.store (hashFn f1.content) = 1 ∧
      (∃ e1, mapFind r.snapshot.files (normPath f1.path) = some e1 ∧
        e1.deduplicated = false) ∧
      (∃ e2, mapFind r.snapshot.files (normPath f2.path) = some e2 ∧
        e2.deduplicated = true ∧ e2.stored_size = 0) ∧
      (r.evs.filter
        (fun e => e == BEv.stored (hashFn f1.content))).length = 1 ∧
      BEv.read (normPath f2.path) ∉ r.evs := by
  intro r hr
  obtain ⟨hne12, hB1, hC1, hA2, hB2, hC2⟩ := nodup_parts hnd
  have hloop := dedup_loop hashFn compressFn encFn A B C f1 f2
    ⟨{ id := snapId, target_name := name, source_path := sourcePath,
        created_at := createdAt, compression := compression,
        encrypted := encrypted, files := [], stats := SnapshotStats.zero },
      store0, 0, 0, 0, []⟩
    hcontent h0 hbefore rfl hne12 hB1 hC1 hA2 hB2 hC2 _ rfl
  obtain ⟨hc1, hc2, hc3, hc4, hc5⟩ := hloop
  have hrs : r.store = ((A ++ f1 :: (B ++ f2 :: C)).foldl
      (backupStep hashFn compressFn encFn)
      ⟨{ id := snapId, target_name := name, source_path := sourcePath,
          created_at := createdAt, compression := compression,
          encrypted := encrypted, files := [],
          stats := SnapshotStats.zero },
        store0, 0, 0, 0, []⟩).store := by
    rw [hr]
    show ((walk.filter (fun f => !(is_excluded f.path excl))).foldl
      (backupStep hashFn compressFn encFn)
      ⟨{ id := snapId, target_name := name, source_path := sourcePath,
          created_at := createdAt, compression := compression,
          encrypted := encrypted, files := [],
          stats := SnapshotStats.zero },
        store0, 0, 0, 0, []⟩).store = _
    rw [hwalk]
  have hrf : r.snapshot.files = ((A ++ f1 :: (B ++ f2 :: C)).foldl
      (backupStep hashFn compressFn encFn)
      ⟨{ id := snapId, target_name := name, source_path := sourcePath,
          created_at := createdAt, compression := compression,
          encrypted := encrypted, files := [],
          stats := SnapshotStats.zero },
        store0, 0, 0, 0, []⟩).snapshot.files := by
    rw [hr]
    show ((walk.filter (fun f => !(is_excluded f.path excl))).foldl
      (backupStep hashFn compressFn encFn)
      ⟨{ id := snapId, target_name := name, source_path := sourcePath,
          created_at := createdAt, compression := compression,
          encrypted := encrypted, files := [],
          stats := SnapshotStats.zero },
        store0, 0, 0, 0, []⟩).snapshot.files = _
    rw [hwalk]
  have hre : r.evs = ((A ++ f1 :: (B ++ f2 :: C)).foldl
      (backupStep hashFn compressFn encFn)
      ⟨{ id := snapId, target_name := name, source_path := sourcePath,
          created_at := createdAt, compression := compression,
          encrypted := encrypted, files := [],
          stats := SnapshotStats.zero },
        store0, 0, 0, 0, []⟩).evs := by
    rw [hr]
    show ((walk.filter (fun f => !(is_excluded f.path excl))).foldl
      (backupStep hashFn compressFn encFn)
      ⟨{ id := snapId, target_name := name, source_path := sourcePath,
          created_at := createdAt, compression := compression,
          encrypted := encrypted, files := [],
          stats := SnapshotStats.zero },
        store0, 0, 0, 0, []⟩).evs = _
    rw [hwalk]
  refine ⟨?_,
    ⟨⟨hashFn f1.content, f1.content.length,
        (encApply encFn (compressFn f1.content)).length, f1.mode,
        f1.mtime, false⟩, ?_, rfl⟩,
    ⟨⟨hashFn f2.content, f2.content.length, 0, f2.mode, f2.mtime, true⟩,
      ?_, rfl, rfl⟩, ?_, ?_⟩
  · rw [hrs]
    exact hc1
  · rw [hrf]
    exact hc2
  · rw [hrf]
    exact hc3
  · rw [hre]
    exact hc4
  · rw [hre]
    exact hc5

theorem claim_dedup_witness :
    (demoWalk.filter (fun f => !(is_excluded f.path []))
      = [] ++ (⟨"a.txt", [5], Option.none, 0⟩ : SrcFile)
        :: ([] ++ (⟨"b/c.txt", [5], Option.none, 0⟩ : SrcFile) :: []) ∧
      storeHas [] (demoHash [5]) = false) ∧
    storeCount (backupRun demoHash (fun d => d) Option.none [] "t" "src"
      CompressionKind.none false 0 "id" demoWalk [] 0).store
      (demoHash [5]) = 1 ∧
    (∃ e1, mapFind (backupRun demoHash (fun d => d) Option.none [] "t"
        "src" CompressionKind.none false 0 "id" demoWalk []
        0).snapshot.files (normPath "a.txt") = some e1 ∧
      e1.deduplicated = false) ∧
    (∃ e2, mapFind (backupRun demoHash (fun d => d) Option.none [] "t"
        "src" CompressionKind.none false 0 "id" demoWalk []
        0).snapshot.files (normPath "b/c.txt") = some e2 ∧
      e2.deduplicated = true ∧ e2.stored_size = 0) ∧
    ((backupRun demoHash (fun d => d) Option.none [] "t" "src"
      CompressionKind.none false 0 "id" demoWalk [] 0).evs.filter
        (fun e => e == BEv.stored (demoHash [5]))).length = 1 ∧
    BEv.read (normPath "b/c.txt")
      ∉ (backupRun demoHash (fun d => d) Option.none [] "t" "src"
        CompressionKind.none false 0 "id" demoWalk [] 0).evs :=
  ⟨⟨by decide, by decide⟩,
    claim_dedup demoHash (fun d => d) Option.none [] "t" "src"
      CompressionKind.none false 0 "id" demoWalk [] 0 [] []
      [] ⟨"a.txt", [5], Option.none, 0⟩ ⟨"b/c.txt", [5], Option.none, 0⟩
      (by decide) rfl (by decide) (by intro g hg; cases hg)
      (by decide) _ rfl⟩

/- ── Prune lemmas ─────────────────────────────────────────────────────── -/

theorem delete_snapshot_snapshots (repo : RepoState) (s : Snapshot) :
    (delete_snapshot repo s).1.snapshots
      = repo.snapshots.filter (fun t => t.id != s.id) := rfl

theorem delete_snapshot_keeps (repo : RepoState) (d : Snapshot)
    (s : Snapshot) (hs : s ∈ repo.snapshots) (hne : s.id ≠ d.id)
    (b : String × List Nat) (hb : b ∈ repo.blobs)
    (href : b.1 ∈ s.files.map (fun pe => pe.2.hash)) :
    b ∈ (delete_snapshot repo d).1.blobs := by
  show b ∈ repo.blobs.filter _
  rw [List.mem_filter]
  refine ⟨hb, ?_⟩
  have hrefs : b.1 ∈ referencedHashes repo.snapshots d.id := by
    rw [referencedHashes, List.mem_flatMap]
    refine ⟨s, ?_, href⟩
    rw [List.mem_filter]
    exact ⟨hs, by simpa using hne⟩
  have : ((d.files.map (fun pe => pe.2.hash)).filter
      (fun h => !((referencedHashes repo.snapshots d.id).contains
        h))).contains b.1 = false := by
    rw [← Bool.not_eq_true]
    intro hcon
    have hmem := List.elem_iff.mp hcon
    rw [List.mem_filter] at hmem
    have : (referencedHashes repo.snapshots d.id).contains b.1 = true :=
      List.elem_iff.mpr hrefs
    rw [this] at hmem
    simpa using hmem.2
  show (!((d.files.map (fun pe => pe.2.hash)).filter
      (fun h => !((referencedHashes repo.snapshots d.id).contains
        h))).contains b.1) = true
  rw [this]
  rfl

theorem pruneFold_snapshots :
    ∀ (ds : List Snapshot) (acc : RepoState × Nat × Nat),
      ((ds.foldl pruneStep acc).1).snapshots
        = acc.1.snapshots.filter (fun s => ds.all (fun d => s.id != d.id))
  | [], acc => by simp
  | d :: rest, acc => by
    rw [List.foldl_cons, pruneFold_snapshots rest]
    show ((acc.1.snapshots.filter (fun t => t.id != d.id)).filter _) = _
    rw [List.filter_filter]
    apply List.filter_congr
    intro s _
    simp [List.all_cons, Bool.and_comm]

theorem pruneFold_keeps :
    ∀ (ds : List Snapshot) (acc : RepoState × Nat × Nat) (s : Snapshot),
      s ∈ acc.1.snapshots → (∀ d ∈ ds, s.id ≠ d.id) →
      ∀ b ∈ acc.1.blobs, b.1 ∈ s.files.map (fun pe => pe.2.hash) →
      b ∈ ((ds.foldl pruneStep acc).1).blobs
  | [], _, _, _, _, b, hb, _ => hb
  | d :: rest, acc, s, hs, hid, b, hb, href => by
    rw [List.foldl_cons]
    refine pruneFold_keeps rest _ s ?_
      (fun d2 hd2 => hid d2 (List.mem_cons_of_mem _ hd2)) b ?_ href
    · show s ∈ acc.1.snapshots.filter _
      rw [List.mem_filter]
      refine ⟨hs, ?_⟩
      simpa using hid d (List.mem_cons_self _ _)
    · exact delete_snapshot_keeps acc.1 d s hs
        (hid d (List.mem_cons_self _ _)) b hb href

theorem pruneFold_count :
    ∀ (ds : List Snapshot) (acc : RepoState × Nat × Nat),
      (ds.foldl pruneStep acc).2.1 = acc.2.1 + ds.length
  | [], _ => by simp
  | d :: rest, acc => by
    rw [List.foldl_cons, pruneFold_count rest]
    show acc.2.1 + 1 + rest.length = _
    simp
    omega

/-- C1: starting from a repository in which every snapshot's entries
resolve to existing blobs, pruning removes no blob whose hash appears in
any surviving snapshot, and afterwards every FileEntry of every surviving
snapshot still has an existing blob under its hash. -/
theorem claim_prune_safety (repo : RepoState) (target : String)
    (keep : Nat)
    (hpre : ∀ s ∈ repo.snapshots, ∀ pe ∈ s.files,
      blob_exists repo pe.2.hash = true) :
    ∀ repo2 deleted freed,
      prune_snapshots repo target keep = (repo2, deleted, freed) →
      (∀ b ∈ repo.blobs,
        (∃ s ∈ repo2.snapshots,
          b.1 ∈ s.files.map (fun pe => pe.2.hash)) →
        b ∈ repo2.blobs) ∧
      (∀ s ∈ repo2.snapshots, ∀ pe ∈ s.files,
        blob_exists repo2 pe.2.hash = true) := by
  intro repo2 deleted freed hpr
  rw [prune_snapshots] at hpr
  by_cases hle : (list_snapshots_for_target repo target).length ≤ keep
  · rw [if_pos hle] at hpr
    have heq : repo = repo2 := congrArg Prod.fst hpr
    rw [← heq]
    exact ⟨fun b hb _ => hb, hpre⟩
  · rw [if_neg hle] at hpr
    have hr2 : (((List.insertionSort descBy
        (list_snapshots_for_target repo target)).drop keep).foldl
        pruneStep (repo, 0, 0)).1 = repo2 := congrArg Prod.fst hpr
    have hsn : repo2.snapshots = repo.snapshots.filter
        (fun s => ((List.insertionSort descBy
          (list_snapshots_for_target repo target)).drop keep).all
            (fun d => s.id != d.id)) := by
      rw [← hr2, pruneFold_snapshots]
    have hkeep : ∀ s ∈ repo2.snapshots,
        ∀ b ∈ repo.blobs, b.1 ∈ s.files.map (fun pe => pe.2.hash) →
        b ∈ repo2.blobs := by
      intro s hs2 b hb href
      rw [hsn, List.mem_filter] at hs2
      obtain ⟨hsrepo, hall⟩ := hs2
      have hid : ∀ d ∈ (List.insertionSort descBy
          (list_snapshots_for_target repo target)).drop keep,
          s.id ≠ d.id := by
        intro d hd
        have := List.all_eq_true.mp hall d hd
        simpa using this
      rw [← hr2]
      exact pruneFold_keeps _ (repo, 0, 0) s hsrepo hid b hb href
    refine ⟨?_, ?_⟩
    · rintro b hb ⟨s, hs2, href⟩
      exact hkeep s hs2 b hb href
    · intro s hs2 pe hpe
      have hsrepo : s ∈ repo.snapshots := by
        rw [hsn, List.mem_filter] at hs2
        exact hs2.1
      have hex := hpre s hsrepo pe hpe
      rw [blob_exists, List.any_eq_true] at hex
      obtain ⟨b, hbmem, hbeq⟩ := hex
      have hb1 : b.1 = pe.2.hash := by simpa using hbeq
      have href : b.1 ∈ s.files.map (fun pe => pe.2.hash) := by
        rw [hb1]
        exact List.mem_map.mpr ⟨pe, hpe, rfl⟩
      have hb2 := hkeep s hs2 b hbmem href
      rw [blob_exists, List.any_eq_true]
      exact ⟨b, hb2, hbeq⟩

theorem claim_prune_safety_witness :
    (∀ s ∈ repoP.snapshots, ∀ pe ∈ s.files,
      blob_exists repoP pe.2.hash = true) ∧
    ((∀ b ∈ repoP.blobs,
        (∃ s ∈ (prune_snapshots repoP "T" 1).1.snapshots,
          b.1 ∈ s.files.map (fun pe => pe.2.hash)) →
        b ∈ (prune_snapshots repoP "T" 1).1.blobs) ∧
      (∀ s ∈ (prune_snapshots repoP "T" 1).1.snapshots,
        ∀ pe ∈ s.files,
        blob_exists (prune_snapshots repoP "T" 1).1 pe.2.hash = true)) :=
  ⟨by decide, claim_prune_safety repoP "T" 1 (by decide) _ _ _ rfl⟩

/-- C5: with unique snapshot ids (ids are manifest file names), pruning a
target to keep snapshots returns (0, 0) and deletes nothing when at most
keep exist; otherwise it deletes exactly the snapshots beyond index keep
of the created_at-descending order, so that afterwards the number of
snapshots for the target is min(original_count, keep), every retained
snapshot was already stored, and every retained snapshot is at least as
recent as every pruned one. -/
theorem claim_prune_retention (repo : RepoState) (target : String)
    (keep : Nat) (hnd : (repo.snapshots.map Snapshot.id).Nodup) :
    ∀ repo2 deleted freed,
      prune_snapshots repo target keep = (repo2, deleted, freed) →
      ((list_snapshots_for_target repo target).length ≤ keep →
        repo2 = repo ∧ deleted = 0 ∧ freed = 0) ∧
      (list_snapshots_for_target repo2 target).length
        = min (list_snapshots_for_target repo target).length keep ∧
      deleted = (list_snapshots_for_target repo target).length
        - min (list_snapshots_for_target repo target).length keep ∧
      (∀ s ∈ list_snapshots_for_target repo2 target,
        s ∈ list_snapshots_for_target repo target) ∧
      (∀ s ∈ list_snapshots_for_target repo2 target,
        ∀ t ∈ list_snapshots_for_target repo target,
          t ∉ list_snapshots_for_target repo2 target →
          t.created_at ≤ s.created_at) := by
  intro repo2 deleted freed hpr
  rw [prune_snapshots] at hpr
  by_cases hle : (list_snapshots_for_target repo target).length ≤ keep
  · rw [if_pos hle] at hpr
    have h1 : repo = repo2 := congrArg Prod.fst hpr
    have h2 : (0 : Nat) = deleted := congrArg (fun t => t.2.1) hpr
    have h3 : (0 : Nat) = freed := congrArg (fun t => t.2.2) hpr
    refine ⟨fun _ => ⟨h1.symm, h2.symm, h3.symm⟩, ?_, ?_, ?_, ?_⟩
    · rw [← h1, Nat.min_eq_left hle]
    · omega
    · intro s hs
      rw [← h1] at hs
      exact hs
    · intro s hs t ht ht2
      rw [← h1] at ht2
      exact absurd ht ht2
  · rw [if_neg hle] at hpr
    have hkle : keep ≤ (list_snapshots_for_target repo target).length := by
      omega
    have hlen_perm : (List.insertionSort descBy
        (list_snapshots_for_target repo target)).length
        = (list_snapshots_for_target repo target).length :=
      (List.perm_insertionSort descBy _).length_eq
    have hS := List.take_append_drop keep (List.insertionSort descBy
      (list_snapshots_for_target repo target))
    have hr2 : (((List.insertionSort descBy
        (list_snapshots_for_target repo target)).drop keep).foldl
        pruneStep (repo, 0, 0)).1 = repo2 := congrArg Prod.fst hpr
    have hdel : (((List.insertionSort descBy
        (list_snapshots_for_target repo target)).drop keep).foldl
        pruneStep (repo, 0, 0)).2.1 = deleted :=
      congrArg (fun t => t.2.1) hpr
    rw [pruneFold_count] at hdel
    have hsn : repo2.snapshots = repo.snapshots.filter
        (fun s => ((List.insertionSort descBy
          (list_snapshots_for_target repo target)).drop keep).all
            (fun d => s.id != d.id)) := by
      rw [← hr2, pruneFold_snapshots]
    -- unique ids along the sorted target list
    have hndL : ((list_snapshots_for_target repo target).map
        Snapshot.id).Nodup := by
      have hsub : (list_snapshots_for_target repo target).Sublist
          (list_snapshots repo) := List.filter_sublist _
      have hperm := (List.perm_insertionSort ascBy repo.snapshots).map
        Snapshot.id
      exact (hsub.map Snapshot.id).nodup (hperm.symm.nodup hnd)
    have hndS : ((List.insertionSort descBy
        (list_snapshots_for_target repo target)).map Snapshot.id).Nodup :=
      (((List.perm_insertionSort descBy _).map Snapshot.id).symm).nodup
        hndL
    have hdisjKD : ∀ s ∈ (List.insertionSort descBy
        (list_snapshots_for_target repo target)).take keep,
        ∀ d ∈ (List.insertionSort descBy
          (list_snapshots_for_target repo target)).drop keep,
        s.id ≠ d.id := by
      rw [← hS, List.map_append, List.nodup_append] at hndS
      intro s hs d hd heq
      exact hndS.2.2 (List.mem_map.mpr ⟨s, hs, rfl⟩)
        (heq ▸ List.mem_map.mpr ⟨d, hd, rfl⟩)
    have hsorted := List.sorted_insertionSort descBy
      (list_snapshots_for_target repo target)
    have hpairKD : ∀ s ∈ (List.insertionSort descBy
        (list_snapshots_for_target repo target)).take keep,
        ∀ d ∈ (List.insertionSort descBy
          (list_snapshots_for_target repo target)).drop keep,
        d.created_at ≤ s.created_at := by
      have hsorted2 : List.Pairwise descBy
          ((List.insertionSort descBy
            (list_snapshots_for_target repo target)).take keep
          ++ (List.insertionSort descBy
            (list_snapshots_for_target repo target)).drop keep) := by
        rw [hS]
        exact hsorted
      exact (List.pairwise_append.mp hsorted2).2.2
    -- the surviving target list is a permutation of the kept block
    have hcomm : repo2.snapshots.filter
        (fun s => s.target_name == target)
        = (repo.snapshots.filter (fun s => s.target_name == target)).filter
          (fun s => ((List.insertionSort descBy
            (list_snapshots_for_target repo target)).drop keep).all
              (fun d => s.id != d.id)) := by
      rw [hsn, List.filter_filter, List.filter_filter]
      apply List.filter_congr
      intro s _
      exact Bool.and_comm _ _
    have hKfil : ((List.insertionSort descBy
        (list_snapshots_for_target repo target)).take keep).filter
        (fun s => ((List.insertionSort descBy
          (list_snapshots_for_target repo target)).drop keep).all
            (fun d => s.id != d.id))
        = (List.insertionSort descBy
          (list_snapshots_for_target repo target)).take keep := by
      rw [List.filter_eq_self]
      intro s hs
      rw [List.all_eq_true]
      intro d hd
      simpa using hdisjKD s hs d hd
    have hDfil : ((List.insertionSort descBy
        (list_snapshots_for_target repo target)).drop keep).filter
        (fun s => ((List.insertionSort descBy
          (list_snapshots_for_target repo target)).drop keep).all
            (fun d => s.id != d.id))
        = [] := by
      rw [List.filter_eq_nil_iff]
      intro d hd hall
      rw [List.all_eq_true] at hall
      have := hall d hd
      simp at this
    have hTK : (list_snapshots_for_target repo2 target).Perm
        ((List.insertionSort descBy
          (list_snapshots_for_target repo target)).take keep) := by
      have p1 := (List.perm_insertionSort ascBy repo2.snapshots).filter
        (fun s => s.target_name == target)
      rw [hcomm] at p1
      have p3 := (((List.perm_insertionSort ascBy repo.snapshots).filter
        (fun s => s.target_name == target)).symm).filter
        (fun s => ((List.insertionSort descBy
          (list_snapshots_for_target repo target)).drop keep).all
            (fun d => s.id != d.id))
      have p4 := ((List.perm_insertionSort descBy
        (list_snapshots_for_target repo target)).symm).filter
        (fun s => ((List.insertionSort descBy
          (list_snapshots_for_target repo target)).drop keep).all
            (fun d => s.id != d.id))
      have p5 : (List.insertionSort descBy
          (list_snapshots_for_target repo target)).filter
          (fun s => ((List.insertionSort descBy
            (list_snapshots_for_target repo target)).drop keep).all
              (fun d => s.id != d.id))
          = (List.insertionSort descBy
            (list_snapshots_for_target repo target)).take keep := by
        have hq := congrArg (fun l => l.filter
          (fun s => ((List.insertionSort descBy
            (list_snapshots_for_target repo target)).drop keep).all
              (fun d => s.id != d.id))) hS
        simp only at hq
        rw [List.filter_append, hKfil, hDfil, List.append_nil] at hq
        exact hq.symm
      exact ((p1.trans p3).trans p4).trans (p5 ▸ List.Perm.refl _)
    have hmin2 : min (list_snapshots_for_target repo target).length keep
        = keep := min_eq_right hkle
    refine ⟨fun h => absurd h hle, ?_, ?_, ?_, ?_⟩
    · rw [hTK.length_eq, List.length_take, hmin2]
      exact min_eq_left (by omega)
    · have hlen_drop : ((List.insertionSort descBy
          (list_snapshots_for_target repo target)).drop keep).length
          = (List.insertionSort descBy
            (list_snapshots_for_target repo target)).length - keep :=
        List.length_drop _ _
      have hdel2 : deleted = ((List.insertionSort descBy
          (list_snapshots_for_target repo target)).drop keep).length := by
        rw [← hdel]
        show (0 : Nat) + _ = _
        rw [Nat.zero_add]
      rw [hmin2]
      omega
    · intro s hs
      have hsK := hTK.mem_iff.mp hs
      have hsS := (List.take_sublist keep _).subset hsK
      exact ((List.perm_insertionSort descBy _).mem_iff).mp hsS
    · intro s hs t ht ht2
      have hsK := hTK.mem_iff.mp hs
      have htS : t ∈ List.insertionSort descBy
          (list_snapshots_for_target repo target) :=
        ((List.perm_insertionSort descBy _).mem_iff).mpr ht
      rw [← hS] at htS
      rcases List.mem_append.mp htS with htK | htD
      · exact absurd (hTK.mem_iff.mpr htK) ht2
      · exact hpairKD s hsK t htD

theorem claim_prune_retention_witness :
    (repoP.snapshots.map Snapshot.id).Nodup ∧
    ((list_snapshots_for_target repoP "T").length ≤ 1 →
      (prune_snapshots repoP "T" 1).1 = repoP ∧
        (prune_snapshots repoP "T" 1).2.1 = 0 ∧
        (prune_snapshots repoP "T" 1).2.2 = 0) ∧
    (list_snapshots_for_target (prune_snapshots repoP "T" 1).1 "T").length
      = min (list_snapshots_for_target repoP "T").length 1 ∧
    (prune_snapshots repoP "T" 1).2.1
      = (list_snapshots_for_target repoP "T").length
        - min (list_snapshots_for_target repoP "T").length 1 ∧
    (∀ s ∈ list_snapshots_for_target (prune_snapshots repoP "T" 1).1 "T",
      s ∈ list_snapshots_for_target repoP "T") ∧
    (∀ s ∈ list_snapshots_for_target (prune_snapshots repoP "T" 1).1 "T",
      ∀ t ∈ list_snapshots_for_target repoP "T",
        t ∉ list_snapshots_for_target (prune_snapshots repoP "T" 1).1 "T" →
        t.created_at ≤ s.created_at) :=
  ⟨by decide,
    claim_prune_retention repoP "T" 1 (by decide) _ _ _ rfl⟩

end ButNext


